import Mathlib

/-!
Verification of the circuit recognition repository.

This file embeds, in Lean, the schematic text parser
(`asc_to_json_parser.py`), the schematic serializer described by the
specification, and the geometric reconstruction pipeline
(`app/services/circuit_recognizer.py`: the `Wire` class,
`_process_junctions` and `_generate_asc_content`), together with the
scoped temporary-file pattern of the service wrappers
(`app/services/asc_parser.py`, `process_image`).

Conventions of the embedding:
* Text is handled line by line: a document is a `List String` of its
  lines (the result of `readlines`, with the trailing newline removed by
  the `strip()` that the source applies to every line before use).
* Python `str.strip`, `str.split`, `str.startswith` and `int(...)` are
  modelled by `pyStrip`, `pySplit`/`words`, `pyStartsWith` and
  `pyIntChars`, defined below over explicit character lists.
* Python exceptions are modelled by the `PyErr` error type and
  `Except`-valued functions.
* Detection centres (floating point in the source) are modelled as
  integers: every arithmetic operation the pipeline applies to them
  (differences, comparisons against integer tolerances, `% 16`,
  subtraction of the remainder, `int(...)` truncation) is exact on
  integer-valued floats, and `int(...)` is then the identity.
-/

deriving instance DecidableEq for Except

namespace Circuit

/-! ## Python string primitives -/

/-- Whitespace test used by `str.split()` / `str.strip()`. -/
def isWs (c : Char) : Bool := c.isWhitespace

/-- Helper for `words`: accumulates the current token (reversed). -/
def wordsAux : List Char → List Char → List (List Char)
  | [], acc => if acc = [] then [] else [acc.reverse]
  | c :: cs, acc =>
    if isWs c then (if acc = [] then wordsAux cs [] else acc.reverse :: wordsAux cs [])
    else wordsAux cs (c :: acc)

/-- Model of Python `str.split()` (no argument): split on runs of
whitespace, discarding empty pieces. -/
def words (l : List Char) : List (List Char) := wordsAux l []

/-- Model of Python `" ".join(tokens)`. -/
def sepSpace : List (List Char) → List Char
  | [] => []
  | [t] => t
  | t :: ts => t ++ ' ' :: sepSpace ts

/-- Model of Python `str.strip()`: drop leading and trailing whitespace. -/
def trimChars (l : List Char) : List Char :=
  ((l.dropWhile isWs).reverse.dropWhile isWs).reverse

/-- `pyStrip s` models `s.strip()`. -/
def pyStrip (s : String) : String := ⟨trimChars s.data⟩

/-- `pyStartsWith s pre` models `s.startswith(pre)`. -/
def pyStartsWith (s pre : String) : Bool := pre.data.isPrefixOf s.data

/-- A whitespace-free, non-empty string: exactly the strings `str.split()`
can return as tokens and that survive a split/join round trip. -/
def isToken (s : String) : Prop := s.data ≠ [] ∧ ∀ c ∈ s.data, isWs c = false

instance (s : String) : Decidable (isToken s) := by
  unfold isToken; infer_instance

/-- Non-empty whitespace-free character list (the data of a token). -/
def tokC (t : List Char) : Prop := t ≠ [] ∧ ∀ c ∈ t, isWs c = false

instance (t : List Char) : Decidable (tokC t) := by
  unfold tokC; infer_instance

/-! ## Decimal numerals: printing (for the serializer and the generated
text) and Python `int(...)` parsing -/

/-- Decimal digit character for `n < 10`. -/
def digitChar (n : Nat) : Char := Char.ofNat (48 + n)

/-- Numeric value of a digit character. -/
def digToNat (c : Char) : Nat := c.toNat - 48

/-- Fuel-driven digit-list printer (`fuel > n` is always used). -/
def natDigitsF : Nat → Nat → List Char
  | 0, _ => []
  | fuel + 1, n =>
    if n < 10 then [digitChar n]
    else natDigitsF fuel (n / 10) ++ [digitChar (n % 10)]

/-- Decimal digit list of a natural number. -/
def natDigits (n : Nat) : List Char := natDigitsF (n + 1) n

/-- Decimal representation of a natural number. -/
def natRepr (n : Nat) : String := ⟨natDigits n⟩

/-- Decimal representation of an integer (as Python `str`/`format` print
one). -/
def intRepr (i : Int) : String :=
  if i < 0 then "-" ++ natRepr (-i).toNat else natRepr i.toNat

/-- Tail of a valid Python integer numeral after its first digit:
digits, with single underscores allowed between digits. -/
def numTail : List Char → Bool
  | [] => true
  | c :: cs =>
    if c = '_' then !cs.isEmpty && (cs.headD '0').isDigit && numTail cs
    else c.isDigit && numTail cs

/-- A valid unsigned Python integer numeral: a digit followed by a valid
tail. -/
def numOk : List Char → Bool
  | [] => false
  | c :: cs => c.isDigit && numTail cs

/-- Value of a digit list (most significant first). -/
def digitsVal (l : List Char) : Nat :=
  l.foldl (fun n c => 10 * n + digToNat c) 0

/-- Value of an unsigned numeral, or `none` when invalid. -/
def numVal (ds : List Char) : Option Int :=
  if numOk ds then some ((digitsVal (ds.filter (· ≠ '_'))) : Nat) else none

/-- Model of Python `int(tok)` on a whitespace-free token: optional sign,
then a digit string with single underscores allowed between digits;
`none` models the `ValueError` raised otherwise. -/
def pyIntChars (l : List Char) : Option Int :=
  match l with
  | [] => none
  | c :: cs =>
    if c = '+' then numVal cs
    else if c = '-' then
      match numVal cs with
      | some n => some (-n)
      | none => none
    else numVal l

/-! ## First-occurrence de-duplication

The source uses this pattern twice: the structural dedup helpers of
`ASCParser` (`_remove_duplicate_components`, `_remove_duplicate_wires`,
which keep the first occurrence of each key) and the final
`no_duplicates` loop of `_generate_asc_content`. -/

/-- First-occurrence de-duplication by a key function, mirroring the
`seen`-set-plus-list loop of `_remove_duplicate_components` and
`_remove_duplicate_wires`. -/
def dedupByKey {α β : Type} [DecidableEq β] (key : α → β) : List β → List α → List α
  | _, [] => []
  | seen, c :: cs =>
    if key c ∈ seen then dedupByKey key seen cs
    else c :: dedupByKey key (key c :: seen) cs

/-- First-occurrence de-duplication of a list, mirroring the
`no_duplicates` loop at the end of `_generate_asc_content`. -/
def dedupFirst {α : Type} [DecidableEq α] (l : List α) : List α :=
  dedupByKey id [] l

/-! ## The schematic data model and the text parser

Embedding of `ASCParser` (`asc_to_json_parser.py`).  The parser's
structured output (`_to_json`) is the `Schematic` record below; Python
`None` for an absent version or sheet becomes `Option`.  A component's
attribute dictionary is modelled as an insertion-ordered key/value list
(`setAttr` reproduces dictionary assignment: update in place if the key
exists, else append). -/

/-- Sheet record parsed from a `SHEET` line. -/
structure Sheet where
  number : Int
  width : Int
  height : Int
  deriving DecidableEq, Repr

/-- Component record parsed from a `SYMBOL` line (plus its `SYMATTR`
lines). -/
structure Component where
  id : String
  type : String
  x : Int
  y : Int
  rotation : String
  attributes : List (String × String)
  deriving DecidableEq, Repr

/-- Wire record parsed from a `WIRE` line, endpoints in file order. -/
structure WireRec where
  x1 : Int
  y1 : Int
  x2 : Int
  y2 : Int
  deriving DecidableEq, Repr

/-- Flag record parsed from a `FLAG` line. -/
structure Flag where
  x : Int
  y : Int
  net_name : String
  deriving DecidableEq, Repr

/-- The parser's structured output (`_to_json`). -/
structure Schematic where
  version : Option String
  sheet : Option Sheet
  components : List Component
  wires : List WireRec
  flags : List Flag
  deriving DecidableEq, Repr

/-- Python exceptions raised by the embedded code. -/
inductive PyErr where
  | indexError : PyErr
  | valueError : String → PyErr
  | keyError : String → PyErr
  deriving DecidableEq, Repr

/-- `parts[i]`: list indexing, raising `IndexError` when out of range. -/
def getTok (parts : List (List Char)) (i : Nat) : Except PyErr (List Char) :=
  match parts[i]? with
  | some t => .ok t
  | none => .error .indexError

/-- `int(tok)`: raises `ValueError` (carrying the offending token, as the
Python message does) when the token is not an integer numeral. -/
def toInt (t : List Char) : Except PyErr Int :=
  match pyIntChars t with
  | some n => .ok n
  | none => .error (.valueError ⟨t⟩)

/-- Dictionary assignment `attrs[k] = v`: replaces the value in place if
the key is present, else appends (insertion order). -/
def setAttr (attrs : List (String × String)) (k v : String) : List (String × String) :=
  if attrs.any (fun p => p.1 = k) then
    attrs.map (fun p => if p.1 = k then (k, v) else p)
  else attrs ++ [(k, v)]

/-- `_add_symattr_to_component`: `parts[1]` is the attribute key,
`" ".join(parts[2:])` the value (empty when there are no value tokens);
the key `InstName` is stored under `name`, others verbatim. -/
def addSymattr (attrs : List (String × String)) (t : String) :
    Except PyErr (List (String × String)) :=
  let parts := words t.data
  getTok parts 1 >>= fun attrType =>
  let attrValue : String := ⟨sepSpace (parts.drop 2)⟩
  if (⟨attrType⟩ : String) = "InstName" then
    pure (setAttr attrs "name" attrValue)
  else
    pure (setAttr attrs ⟨attrType⟩ attrValue)

/-- `_parse_symbol_line`: `SYMBOL type x y rotation`.  The component
counter has already counted `counter` components; on success the new
component is `comp_{counter+1}` (the source increments the counter and
formats it). -/
def parseSymbolLine (counter : Nat) (t : String) : Except PyErr Component :=
  let parts := words t.data
  getTok parts 1 >>= fun componentType =>
  getTok parts 2 >>= fun xTok => toInt xTok >>= fun x =>
  getTok parts 3 >>= fun yTok => toInt yTok >>= fun y =>
  getTok parts 4 >>= fun rotation =>
  pure { id := "comp_" ++ natRepr (counter + 1), type := ⟨componentType⟩,
         x := x, y := y, rotation := ⟨rotation⟩, attributes := [] }

/-- `_parse_wire_line`: `WIRE x1 y1 x2 y2`, kept in file order. -/
def parseWireLine (t : String) : Except PyErr WireRec :=
  let parts := words t.data
  getTok parts 1 >>= fun t1 => toInt t1 >>= fun x1 =>
  getTok parts 2 >>= fun t2 => toInt t2 >>= fun y1 =>
  getTok parts 3 >>= fun t3 => toInt t3 >>= fun x2 =>
  getTok parts 4 >>= fun t4 => toInt t4 >>= fun y2 =>
  pure ⟨x1, y1, x2, y2⟩

/-- `_parse_flag_line`: `FLAG x y net`. -/
def parseFlagLine (t : String) : Except PyErr Flag :=
  let parts := words t.data
  getTok parts 1 >>= fun t1 => toInt t1 >>= fun x =>
  getTok parts 2 >>= fun t2 => toInt t2 >>= fun y =>
  getTok parts 3 >>= fun net =>
  pure ⟨x, y, ⟨net⟩⟩

/-- Parser state.  The source's `parse` walks the line list with an index
`i` and, after a `SYMBOL` line, consumes the following `SYMATTR` lines in
an inner loop before appending the component.  Equivalently (and
structurally recursively), the open `SYMBOL` block is carried in the
state as `cur`: a `SYMATTR` line extends `cur` when one is open; any
other line first flushes `cur` to `components` (`closeCur`) and is then
dispatched exactly as in the source's `if`/`elif` chain.  Both
formulations append each component after its attribute lines and before
processing the next recognized line, so they produce identical states. -/
structure ParseSt where
  version : Option String
  sheet : Option Sheet
  components : List Component
  wires : List WireRec
  flags : List Flag
  counter : Nat
  cur : Option Component
  deriving DecidableEq, Repr

/-- Flush the open `SYMBOL` block (the `self.components.append(component)`
after the inner `SYMATTR` loop). -/
def closeCur (st : ParseSt) : ParseSt :=
  match st.cur with
  | none => st
  | some c => { st with components := st.components ++ [c], cur := none }

/-- One line of `ASCParser.parse`.  Every line is first stripped; the
keyword tests are `startswith`, in the source's order
(`Version`/`SHEET`/`SYMBOL`/`WIRE`/`FLAG`); a `SYMATTR` line is consumed
by an open `SYMBOL` block and otherwise matches none of the branches (the
keyword literals are pairwise non-prefixes), so it is skipped. -/
def parseStep (st : ParseSt) (l : String) : Except PyErr ParseSt :=
  let t := pyStrip l
  if pyStartsWith t "SYMATTR" then
    match st.cur with
    | some c =>
        addSymattr c.attributes t >>= fun attrs =>
        pure { st with cur := some { c with attributes := attrs } }
    | none => pure st
  else
    let st := closeCur st
    if pyStartsWith t "Version" then
      getTok (words t.data) 1 >>= fun v =>
      pure { st with version := some (⟨v⟩ : String) }
    else if pyStartsWith t "SHEET" then
      let parts := words t.data
      getTok parts 1 >>= fun t1 => toInt t1 >>= fun number =>
      getTok parts 2 >>= fun t2 => toInt t2 >>= fun width =>
      getTok parts 3 >>= fun t3 => toInt t3 >>= fun height =>
      pure { st with sheet := some ⟨number, width, height⟩ }
    else if pyStartsWith t "SYMBOL" then
      parseSymbolLine st.counter t >>= fun c =>
      pure { st with counter := st.counter + 1, cur := some c }
    else if pyStartsWith t "WIRE" then
      parseWireLine t >>= fun w =>
      pure { st with wires := st.wires ++ [w] }
    else if pyStartsWith t "FLAG" then
      parseFlagLine t >>= fun f =>
      pure { st with flags := st.flags ++ [f] }
    else pure st

/-- The main line loop of `ASCParser.parse`; the end of input flushes an
open `SYMBOL` block. -/
def runParse : List String → ParseSt → Except PyErr ParseSt
  | [], st => .ok (closeCur st)
  | l :: ls, st => parseStep st l >>= runParse ls

/-- Initial parser state (`ASCParser.__init__`). -/
def initSt : ParseSt := ⟨none, none, [], [], [], 0, none⟩

/-- Component dedup key of `_remove_duplicate_components`:
`(type, x, y, rotation, attributes.get("name", ""))`. -/
def attrGetD (attrs : List (String × String)) (k d : String) : String :=
  match attrs.find? (fun p => p.1 = k) with
  | some p => p.2
  | none => d

/-- See `attrGetD`. -/
def compKey (c : Component) : String × Int × Int × String × String :=
  (c.type, c.x, c.y, c.rotation, attrGetD c.attributes "name" "")

/-- Wire dedup key of `_remove_duplicate_wires`: the two endpoints in
Python-tuple (lexicographic) order, via `min`/`max` on the pairs. -/
def wireKey (w : WireRec) : (Int × Int) × (Int × Int) :=
  let p := (w.x1, w.y1)
  let q := (w.x2, w.y2)
  if p.1 < q.1 ∨ (p.1 = q.1 ∧ p.2 ≤ q.2) then (p, q) else (q, p)

/-- `ASCParser.parse` on the list of input lines: run the line loop, then
remove duplicate components and wires (first occurrence kept), and
assemble the structured output of `_to_json`. -/
def parse (ls : List String) : Except PyErr Schematic :=
  runParse ls initSt >>= fun st =>
  pure { version := st.version, sheet := st.sheet,
         components := dedupByKey compKey [] st.components,
         wires := dedupByKey wireKey [] st.wires,
         flags := st.flags }

/-! ## Well-formed lines: when the parser raises

A recognized keyword line is well formed when every token the source
indexes exists and every token passed to `int(...)` is an integer
numeral.  `wfStep` states this condition per line (a `SYMATTR` line is
only consumed — hence only able to raise — when a `SYMBOL` block is
open), `nextHasCur` tracks whether a block is open, and `wfLines` walks a
document. -/

/-- Does token `i` exist and parse as an integer? -/
def tokInt (parts : List (List Char)) (i : Nat) : Bool :=
  match parts[i]? with
  | some tok => (pyIntChars tok).isSome
  | none => false

/-- Well-formedness of one line, given whether a `SYMBOL` block is open. -/
def wfStep (hasCur : Bool) (l : String) : Bool :=
  let t := pyStrip l
  let parts := words t.data
  if pyStartsWith t "SYMATTR" then !hasCur || (parts[1]?).isSome
  else if pyStartsWith t "Version" then (parts[1]?).isSome
  else if pyStartsWith t "SHEET" then tokInt parts 1 && tokInt parts 2 && tokInt parts 3
  else if pyStartsWith t "SYMBOL" then
    (parts[1]?).isSome && tokInt parts 2 && tokInt parts 3 && (parts[4]?).isSome
  else if pyStartsWith t "WIRE" then
    tokInt parts 1 && tokInt parts 2 && tokInt parts 3 && tokInt parts 4
  else if pyStartsWith t "FLAG" then
    tokInt parts 1 && tokInt parts 2 && (parts[3]?).isSome
  else true

/-- Whether a `SYMBOL` block is open after processing one line. -/
def nextHasCur (hasCur : Bool) (l : String) : Bool :=
  let t := pyStrip l
  if pyStartsWith t "SYMATTR" then hasCur
  else if pyStartsWith t "Version" then false
  else if pyStartsWith t "SHEET" then false
  else if pyStartsWith t "SYMBOL" then true
  else false

/-- Well-formedness of a document. -/
def wfLines : List String → Bool → Bool
  | [], _ => true
  | l :: ls, hc => wfStep hc l && wfLines ls (nextHasCur hc l)

/-! ## The schematic serializer

Modelled from the spec: the repository contains no function that turns a
`Schematic` back into the keyword-line text (its only text producer,
`_generate_asc_content`, starts from raw detections, not from a
`Schematic`).  Specification §4.2 describes the missing serializer:
version line first (if set), then the sheet line (if set), one symbol
line per component followed by its attribute lines in stored order (the
`name` key serializing back to `InstName`, a valueless attribute
emitting no value token), one wire line per wire after normalizing so
the endpoint nearer the origin is listed first (ties keep input order),
one flag line per flag, and finally the suppression of any line
identical to an earlier line (first occurrence kept).  Lines are
keyword-prefixed, space-separated token lists, built here with
`sepSpace`. -/

/-- Version line of the serializer (spec §4.2). -/
def versionLine (v : String) : String := ⟨sepSpace ["Version".data, v.data]⟩

/-- Sheet line of the serializer (spec §4.2). -/
def sheetLine (sh : Sheet) : String :=
  ⟨sepSpace ["SHEET".data, (intRepr sh.number).data, (intRepr sh.width).data,
    (intRepr sh.height).data]⟩

/-- Symbol line of a component (spec §4.2). -/
def symbolLine (c : Component) : String :=
  ⟨sepSpace ["SYMBOL".data, c.type.data, (intRepr c.x).data, (intRepr c.y).data,
    c.rotation.data]⟩

/-- Attribute line of one stored attribute (spec §4.2): the canonical
`name` key serializes back to `InstName`; an empty value emits no value
token. -/
def attrLine (kv : String × String) : String :=
  let key : String := if kv.1 = "name" then "InstName" else kv.1
  if kv.2 = "" then ⟨sepSpace ["SYMATTR".data, key.data]⟩
  else ⟨sepSpace ["SYMATTR".data, key.data, kv.2.data]⟩

/-- Symbol line followed by the attribute lines in stored order. -/
def symbolBlock (c : Component) : List String :=
  symbolLine c :: c.attributes.map attrLine

/-- Wire normalization of spec §4.2/§4.4: list the endpoint with the
smaller Euclidean distance to the origin first; on a tie keep the input
order.  (Distances are compared through their squares, which is
equivalent.) -/
def normWire (w : WireRec) : WireRec :=
  if w.x2 * w.x2 + w.y2 * w.y2 < w.x1 * w.x1 + w.y1 * w.y1 then
    ⟨w.x2, w.y2, w.x1, w.y1⟩
  else w

/-- Wire line of the serializer (spec §4.2). -/
def wireLine (w : WireRec) : String :=
  ⟨sepSpace ["WIRE".data, (intRepr w.x1).data, (intRepr w.y1).data,
    (intRepr w.x2).data, (intRepr w.y2).data]⟩

/-- Flag line of the serializer (spec §4.2). -/
def flagLine (f : Flag) : String :=
  ⟨sepSpace ["FLAG".data, (intRepr f.x).data, (intRepr f.y).data, f.net_name.data]⟩

/-- The serializer's lines before duplicate-line suppression. -/
def serializeRaw (S : Schematic) : List String :=
  (S.version.map versionLine).toList ++ (S.sheet.map sheetLine).toList ++
  S.components.flatMap symbolBlock ++
  S.wires.map (fun w => wireLine (normWire w)) ++
  S.flags.map flagLine

/-- The serializer (spec §4.2): emit the lines, suppressing any line
identical to a previously emitted one. -/
def serialize (S : Schematic) : List String := dedupFirst (serializeRaw S)

/-- The component a `SYMBOL` line opens, before its attribute lines:
counter value `k` components have been parsed before it. -/
def freshComp (k : Nat) (c : Component) : Component :=
  ⟨"comp_" ++ natRepr (k + 1), c.type, c.x, c.y, c.rotation, []⟩

/-- The value side condition of a round-trippable attribute: splitting
the value into tokens and re-joining with single spaces reproduces it
(`" ".join(v.split()) == v`); the empty value satisfies it. -/
def normVal (v : String) : Prop := (⟨sepSpace (words v.data)⟩ : String) = v

/-- Well-formedness of a component for serialization: token-shaped type
and rotation, attribute keys that are tokens other than the reserved
`InstName` spelling, round-trippable attribute values, and no duplicate
keys. -/
def compWf (c : Component) : Prop :=
  isToken c.type ∧ isToken c.rotation ∧
  (∀ kv ∈ c.attributes, isToken kv.1 ∧ kv.1 ≠ "InstName" ∧ normVal kv.2) ∧
  (c.attributes.map Prod.fst).Nodup

instance (v : String) : Decidable (normVal v) := by
  unfold normVal; infer_instance

instance (c : Component) : Decidable (compWf c) := by
  unfold compWf; infer_instance

/-- Parsed form of a component: identical except for the counter-assigned
id. -/
def parsedOf (k : Nat) (c : Component) : Component :=
  { c with id := "comp_" ++ natRepr (k + 1) }

/-- Parsed forms of a component list, ids assigned from counter `k`. -/
def parsedFrom (k : Nat) : List Component → List Component
  | [] => []
  | c :: cs => parsedOf k c :: parsedFrom (k + 1) cs

/-- Parser state after the symbol blocks of a component list. -/
def stAfterComps (st : ParseSt) : List Component → ParseSt
  | [] => st
  | c :: cs =>
    stAfterComps { closeCur st with counter := st.counter + 1, cur := some (parsedOf st.counter c) } cs

/-- Parser state after a run of wire lines. -/
def stAfterWires (st : ParseSt) : List WireRec → ParseSt
  | [] => st
  | w :: ws => stAfterWires { closeCur st with wires := st.wires ++ [w] } ws

/-- Parser state after a run of flag lines. -/
def stAfterFlags (st : ParseSt) : List Flag → ParseSt
  | [] => st
  | f :: fs => stAfterFlags { closeCur st with flags := st.flags ++ [f] } fs

/-- The de-duplicated form of a Schematic with the parser's counter ids
`comp_1, comp_2, …` reassigned in order. -/
def reindex (S : Schematic) : Schematic :=
  { S with components := parsedFrom 0 S.components }

/-! ## The reconstruction pipeline (`app/services/circuit_recognizer.py`)

Detection centres are floats in the source; they are modelled as
integers here (see the header comment): all operations applied to them —
differences, comparisons, `% 16`, subtraction, and `int(...)` — are
exact on integer-valued floats, with `int(...)` becoming the identity. -/

/-- Orientation classification of `Wire.test_if_wire_is_valid`, as a
function of the slope angle `s = degrees(atan2(y_start - y_end,
x_start - x_end)) % 360`.  The transcendental `atan2`/`degrees` step is
taken as the argument; the condition chain and `limit = 10` are the
source's, line for line. -/
def classifyAngle (s : ℚ) : String :=
  let limit : ℚ := 10
  if (¬ (limit < s ∧ s ≤ 360 - limit)) ∨ (180 - limit ≤ s ∧ s < 180 + limit) then "h"
  else if ((90 - limit < s ∧ s < 90 + limit) ∨ (270 - limit < s ∧ s < 270 + limit)) then "v"
  else "o"

/-- `Wire.select_starting_point`: 1 when the first endpoint is strictly
closer to the origin, else 2.  The source compares
`np.sqrt(x**2 + y**2)`; the square root is strictly monotone, so the
squared distances compare identically (and exactly, for coordinates in
the pipeline's pixel range). -/
def selectStartingPoint (x1 y1 x2 y2 : Int) : Nat :=
  if x1 * x1 + y1 * y1 < x2 * x2 + y2 * y2 then 1 else 2

/-- The `Wire` class of `circuit_recognizer.py`: endpoints after
`select_starting_point`, plus the orientation string computed by
`test_if_wire_is_valid` at construction. -/
structure Wire where
  x_start : Int
  y_start : Int
  x_end : Int
  y_end : Int
  orientation : String
  deriving DecidableEq, Repr

/-- `Wire.__init__`: order the endpoints by `select_starting_point`, then
classify.  `angleOf dy dx` stands for the float
`degrees(atan2(dy, dx)) % 360` of `test_if_wire_is_valid`. -/
def mkWire (angleOf : Int → Int → ℚ) (x1 y1 x2 y2 : Int) : Wire :=
  if selectStartingPoint x1 y1 x2 y2 = 1 then
    { x_start := x1, y_start := y1, x_end := x2, y_end := y2,
      orientation := classifyAngle (angleOf (y1 - y2) (x1 - x2)) }
  else
    { x_start := x2, y_start := y2, x_end := x1, y_end := y1,
      orientation := classifyAngle (angleOf (y2 - y1) (x2 - x1)) }

/-- Exact value of `degrees(atan2(dy, dx)) % 360` for axis-aligned
differences, where the float computation is exact (`atan2` returns
`0`, `±pi/2` or `pi` exactly and `degrees` maps those to `0.0`, `90.0`,
`180.0`, `270.0` exactly); the function is used only at axis-aligned
inputs in this development, and is left unspecified (arbitrary value 45)
elsewhere. -/
def axisAngle (dy dx : Int) : ℚ :=
  if dy = 0 then (if dx < 0 then 180 else 0)
  else if dx = 0 then (if 0 < dy then 90 else 270)
  else 45

/-! ### `_process_junctions` -/

/-- One outer iteration (index `k`) of the junction-alignment loop of
`_process_junctions`.  `orig` is the snapshot the outer `iterrows` took
when the loop began (mutations during iteration are not reflected in the
yielded rows); `cur` is the mutable frame at the start of iteration `k`
(the inner `iterrows` snapshot).  The inner loop collects, for each
other junction `j`, an x-match when `|orig[k].x − cur[j].x| < 50`, and
otherwise a y-match when `|orig[k].y − cur[j].y| < 50` (the `elif`
precedence); the assignment loops then overwrite each matched
coordinate with the value of row `k` in `cur` (`align_x[0]` is always
`k`, and assigning row `k` to itself first leaves its value unchanged). -/
def alignStep (orig : List (Int × Int)) (k : Nat) (cur : List (Int × Int)) :
    List (Int × Int) :=
  let rowK := orig.getD k (0, 0)
  let curK := cur.getD k (0, 0)
  cur.mapIdx (fun j p =>
    if j = k then p
    else
      let xClose := |rowK.1 - p.1| < 50
      ((if xClose then curK.1 else p.1),
       (if (¬ xClose) ∧ |rowK.2 - p.2| < 50 then curK.2 else p.2)))

/-- The full alignment loop: one `alignStep` per junction, in order. -/
def alignJunctions (js : List (Int × Int)) : List (Int × Int) :=
  (List.range js.length).foldl (fun cur k => alignStep js k cur) js

/-- The 16-grid translation loops of `_process_junctions`: skip a
coordinate that is already a multiple of 16, else subtract `coord % 16`
(Python `%`, i.e. `Int.emod`, both nonnegative for nonnegative input). -/
def pySnap (x : Int) : Int := if x % 16 = 0 then x else x - x % 16

/-- Both snap loops (x then y) act independently per junction. -/
def snapJunctions (js : List (Int × Int)) : List (Int × Int) :=
  js.map (fun p => (pySnap p.1, pySnap p.2))

/-- Junction coordinates after the alignment and grid-translation stages
of `_process_junctions` (lines 186–224). -/
def processJunctionsPoints (js : List (Int × Int)) : List (Int × Int) :=
  snapJunctions (alignJunctions js)

/-- The wire-creation double loop of `_process_junctions`: each unordered
pair of distinct junctions is visited once — the `checked_coordinates`
bookkeeping skips `(j, i)` once `(i, j)` is seen and `i == j` is skipped —
so the pairs are exactly `i < j` in iteration order; the wire joins the
two (already snapped, integer-valued) centres, and is dropped when its
orientation is `"o"` and otherwise appended to the combined list and to
its orientation's list. -/
def wiresFromPoints (angleOf : Int → Int → ℚ) (ps : List (Int × Int)) :
    List Wire × List Wire × List Wire :=
  (List.range ps.length).foldl (fun acc i =>
    (List.range ps.length).foldl (fun acc j =>
      if j ≤ i then acc
      else
        let p := ps.getD i (0, 0)
        let q := ps.getD j (0, 0)
        let w := mkWire angleOf p.1 p.2 q.1 q.2
        if w.orientation = "o" then acc
        else if w.orientation = "h" then (acc.1 ++ [w], acc.2.1 ++ [w], acc.2.2)
        else (acc.1 ++ [w], acc.2.1, acc.2.2 ++ [w])) acc) ([], [], [])

/-- `_process_junctions`: wires, horizontal wires, vertical wires. -/
def processJunctions (angleOf : Int → Int → ℚ) (js : List (Int × Int)) :
    List Wire × List Wire × List Wire :=
  wiresFromPoints angleOf (processJunctionsPoints js)

/-! ### `_generate_asc_content` -/

/-- A detection row's centre (columns `xcenter`, `ycenter`). -/
structure Det where
  xcenter : Int
  ycenter : Int
  deriving DecidableEq, Repr

/-- The per-type constants of the four structurally identical placement
sections of `_generate_asc_content` (resistor, voltage, capacitor,
inductor): symbol and instance-name prefix, vertical and horizontal
tolerances, the offset subtracted from the wire's start coordinate on
the constrained axis, the offset subtracted from the detection's
coordinate on the free axis (96 for voltage sources, 0 otherwise), and
the rotation used for horizontal attachment (`R0` is always used for
vertical attachment). -/
structure PlaceCfg where
  sym : String
  pfx : String
  tolV : Int
  tolH : Int
  off : Int
  freeOff : Int
  rotH : String
  deriving DecidableEq, Repr

/-- `SYMBOL {sym} {a} {b} {rot}\nSYMATTR InstName {pfx}{c}\n`, the
two-line chunk each placement appends. -/
def symbolChunk (cfg : PlaceCfg) (a b : Int) (rot : String) (c : Nat) : String :=
  "SYMBOL " ++ cfg.sym ++ " " ++ intRepr a ++ " " ++ intRepr b ++ " " ++ rot ++
  "\nSYMATTR InstName " ++ cfg.pfx ++ natRepr c ++ "\n"

/-- One step of the inner wire loop for one detection of a placeable
type.  The containment tests use the detection's original centre,
because the `iterrows` row object is a copy that the in-loop `data.loc`
writes do not update; the emitted coordinates combine the wire's start
coordinate (minus `off`) on the constrained axis with the original
centre (minus `freeOff`) on the free axis.  Membership in the vertical
list is tried first, as in the source's `if`/`elif`. -/
def placeStep (cfg : PlaceCfg) (wiresV wiresH : List Wire) (d : Det) (w : Wire)
    (st : List String × Nat) : List String × Nat :=
  if w ∈ wiresV then
    if w.y_start < d.ycenter ∧ d.ycenter < w.y_end ∧
       w.x_start - cfg.tolV < d.xcenter ∧ d.xcenter < w.x_end + cfg.tolV then
      (st.1 ++ [symbolChunk cfg (w.x_start - cfg.off) (d.ycenter - cfg.freeOff)
        "R0" st.2], st.2 + 1)
    else st
  else if w ∈ wiresH then
    if w.x_start < d.xcenter ∧ d.xcenter < w.x_end ∧
       w.y_start - cfg.tolH < d.ycenter ∧ d.ycenter < w.y_end + cfg.tolH then
      (st.1 ++ [symbolChunk cfg (d.xcenter - cfg.freeOff) (w.y_start - cfg.off)
        cfg.rotH st.2], st.2 + 1)
    else st
  else st

/-- The inner wire loop for one detection.  The source has no `break`:
every later matching wire appends another chunk and increments the
counter again. -/
def placeDet (cfg : PlaceCfg) (wiresV wiresH : List Wire) (d : Det) :
    List Wire → List String × Nat → List String × Nat
  | [], st => st
  | w :: ws, st => placeDet cfg wiresV wiresH d ws (placeStep cfg wiresV wiresH d w st)

/-- The outer detection loop of one placement section. -/
def placeAll (cfg : PlaceCfg) (wires wiresV wiresH : List Wire) :
    List Det → List String × Nat → List String × Nat
  | [], st => st
  | d :: ds, st =>
    placeAll cfg wires wiresV wiresH ds (placeDet cfg wiresV wiresH d wires st)

/-- One placement section: all detections of the type, appended chunks
starting from the empty list, instance counter starting at 1. -/
def placeSection (cfg : PlaceCfg) (dets : List Det)
    (wires wiresV wiresH : List Wire) : List String :=
  (placeAll cfg wires wiresV wiresH dets ([], 1)).1

/-- Whether the scan of one wire for one detection emits a chunk: the
wire is found in the vertical (respectively horizontal) list and its
containment test passes. -/
def placeTest (cfg : PlaceCfg) (wiresV wiresH : List Wire) (d : Det) (w : Wire) : Prop :=
  (w ∈ wiresV ∧ w.y_start < d.ycenter ∧ d.ycenter < w.y_end ∧
     w.x_start - cfg.tolV < d.xcenter ∧ d.xcenter < w.x_end + cfg.tolV) ∨
  (w ∉ wiresV ∧ w ∈ wiresH ∧ w.x_start < d.xcenter ∧ d.xcenter < w.x_end ∧
     w.y_start - cfg.tolH < d.ycenter ∧ d.ycenter < w.y_end + cfg.tolH)

instance (cfg : PlaceCfg) (wiresV wiresH : List Wire) (d : Det) (w : Wire) :
    Decidable (placeTest cfg wiresV wiresH d w) := by
  unfold placeTest; infer_instance

/-- Specification predicate (for the grid-alignment claim): the chunk is
a symbol block of the section's type whose constrained coordinate — the
first coordinate under rotation `R0` (vertical attachment), the second
under the horizontal-attachment rotation — is a multiple of 16. -/
def placedChunkAligned (cfg : PlaceCfg) (l : String) : Prop :=
  ∃ a b c, (l = symbolChunk cfg a b "R0" c ∧ a % 16 = 0) ∨
           (l = symbolChunk cfg a b cfg.rotH c ∧ b % 16 = 0)

/-- Constants of the resistor section (lines 279–302). -/
def resCfg : PlaceCfg := ⟨"res", "R", 35, 35, 16, 0, "R90"⟩

/-- Constants of the two voltage sections (voltage-dc and voltage-dc_ac
are textually identical, lines 305–352). -/
def volCfg : PlaceCfg := ⟨"voltage", "V", 25, 25, 0, 96, "R270"⟩

/-- Constants of the capacitor section (lines 355–378). -/
def capCfg : PlaceCfg := ⟨"cap", "C", 50, 25, 16, 0, "R90"⟩

/-- Constants of the inductor section (lines 398–421). -/
def indCfg : PlaceCfg := ⟨"ind", "L", 35, 35, 16, 0, "R90"⟩

/-- The ground scan for one detection (lines 381–395): only horizontal
wires are examined; on the first wire whose containment test passes, the
source appends the `FLAG` line and then evaluates
`data_gnd.loc[index, "y_center"]` — a column that does not exist (the
frame's column is `ycenter`) — so pandas raises `KeyError("y_center")`
and the whole generation aborts; the appended flag line never reaches
the output. -/
def groundScan (wiresH : List Wire) (d : Det) : List Wire → Except PyErr Unit
  | [] => .ok ()
  | w :: ws =>
    if w ∈ wiresH ∧ w.x_start < d.xcenter ∧ d.xcenter < w.x_end ∧
       w.y_start - 200 < d.ycenter ∧ d.ycenter < w.y_end + 200 then
      .error (.keyError "y_center")
    else groundScan wiresH d ws

/-- The ground section: every detection either matches no wire
(contributing no lines) or raises. -/
def groundSection : List Det → List Wire → List Wire → Except PyErr Unit
  | [], _, _ => .ok ()
  | d :: ds, wires, wiresH =>
    groundScan wiresH d wires >>= fun _ => groundSection ds wires wiresH

/-- `WIRE {x_start} {y_start} {x_end} {y_end}\n`. -/
def wireChunk (w : Wire) : String :=
  "WIRE " ++ intRepr w.x_start ++ " " ++ intRepr w.y_start ++ " " ++
  intRepr w.x_end ++ " " ++ intRepr w.y_end ++ "\n"

/-- Python `"".join`, i.e. plain concatenation of the chunks. -/
def pyJoin : List String → String
  | [] => ""
  | s :: ss => s ++ pyJoin ss

/-- `_generate_asc_content`: header chunks (appended without trailing
newlines, exactly as in the source), the placement sections in source
order (resistor, voltage-dc, voltage-dc_ac, capacitor, ground,
inductor), the wire chunks, first-occurrence chunk de-duplication, and
concatenation.  The ground section aborts the whole generation with
`KeyError` at its first attachment, so on success it contributes no
chunks. -/
def generateAsc (dataRes dataVol dataVolAc dataCap dataGnd dataInd : List Det)
    (wires wiresH wiresV : List Wire) : Except PyErr String :=
  let header := ["Version 4", "SHEET 1 880 680"]
  let resL := placeSection resCfg dataRes wires wiresV wiresH
  let volL := placeSection volCfg dataVol wires wiresV wiresH
  let volAcL := placeSection volCfg dataVolAc wires wiresV wiresH
  let capL := placeSection capCfg dataCap wires wiresV wiresH
  groundSection dataGnd wires wiresH >>= fun _ =>
  let indL := placeSection indCfg dataInd wires wiresV wiresH
  let wireL := wires.map wireChunk
  pure (pyJoin (dedupFirst (header ++ resL ++ volL ++ volAcL ++ capL ++ indL ++ wireL)))

/-! ## The scoped temporary file of the service wrappers

`ASCParsingService.parse_asc_file`, `ASCParsingService.convert_to_json`
and `CircuitRecognitionService.process_image` share one pattern: write
the input bytes to a fresh `NamedTemporaryFile(delete=False)`, run the
body inside `try`, and in `finally` delete the file if it still exists.
The file system is modelled as the list of existing paths, and the body
as its outcome (result or exception); the body neither creates nor
deletes the scratch file. -/
def scopedTempCall {E A : Type} (p : String) (fs : List String)
    (body : Except E A) : List String × Except E A :=
  let fs1 := p :: fs
  let fs2 := if p ∈ fs1 then fs1.erase p else fs1
  (fs2, body)


/-! ## Theorems -/

/-! ### Numeral round-trip lemmas -/

theorem digToNat_digitChar {n : Nat} (h : n < 10) : digToNat (digitChar n) = n := by
  interval_cases n <;> decide

theorem digitChar_isDigit {n : Nat} (h : n < 10) : (digitChar n).isDigit = true := by
  interval_cases n <;> decide

theorem digitChar_ne_underscore {n : Nat} (h : n < 10) : digitChar n ≠ '_' := by
  interval_cases n <;> decide

theorem digitChar_not_ws {n : Nat} (h : n < 10) : isWs (digitChar n) = false := by
  interval_cases n <;> decide

theorem digitsVal_append_one (l : List Char) (c : Char) :
    digitsVal (l ++ [c]) = 10 * digitsVal l + digToNat c := by
  simp [digitsVal, List.foldl_append]

theorem natDigitsF_spec : ∀ fuel n, n < fuel →
    (∀ c ∈ natDigitsF fuel n, c.isDigit = true ∧ c ≠ '_' ∧ isWs c = false) ∧
    natDigitsF fuel n ≠ [] ∧
    digitsVal (natDigitsF fuel n) = n := by
  intro fuel
  induction fuel with
  | zero => intro n h; omega
  | succ fuel ih =>
    intro n h
    by_cases h10 : n < 10
    · simp only [natDigitsF, if_pos h10]
      refine ⟨?_, by simp, ?_⟩
      · intro c hc
        simp only [List.mem_singleton] at hc
        subst hc
        exact ⟨digitChar_isDigit h10, digitChar_ne_underscore h10, digitChar_not_ws h10⟩
      · simp [digitsVal, digToNat_digitChar h10]
    · have hdiv : n / 10 < fuel := by
        have := Nat.div_lt_self (by omega : 0 < n) (by omega : 1 < 10)
        omega
      obtain ⟨ihd, ihne, ihval⟩ := ih (n / 10) hdiv
      simp only [natDigitsF, if_neg h10]
      have hm : n % 10 < 10 := Nat.mod_lt _ (by omega)
      refine ⟨?_, by simp, ?_⟩
      · intro c hc
        rcases List.mem_append.mp hc with hc | hc
        · exact ihd c hc
        · simp only [List.mem_singleton] at hc
          subst hc
          exact ⟨digitChar_isDigit hm, digitChar_ne_underscore hm, digitChar_not_ws hm⟩
      · rw [digitsVal_append_one, ihval, digToNat_digitChar hm]
        omega

theorem natDigits_spec (n : Nat) :
    (∀ c ∈ natDigits n, c.isDigit = true ∧ c ≠ '_' ∧ isWs c = false) ∧
    natDigits n ≠ [] ∧ digitsVal (natDigits n) = n :=
  natDigitsF_spec (n + 1) n (by omega)

theorem numTail_of_digits : ∀ l : List Char, (∀ c ∈ l, c.isDigit = true) →
    numTail l = true := by
  intro l
  induction l with
  | nil => intro _; rfl
  | cons c cs ih =>
    intro h
    have hc : c.isDigit = true := h c (by simp)
    have hcs : ∀ d ∈ cs, d.isDigit = true := fun d hd => h d (by simp [hd])
    have hne : c ≠ '_' := by
      intro hEq; subst hEq; simp [Char.isDigit] at hc
    rw [numTail, if_neg hne, hc, ih hcs]
    rfl

theorem numOk_of_digits (l : List Char) (hne : l ≠ []) (h : ∀ c ∈ l, c.isDigit = true) :
    numOk l = true := by
  cases l with
  | nil => exact absurd rfl hne
  | cons c cs =>
    simp only [numOk]
    rw [h c (by simp), numTail_of_digits cs (fun d hd => h d (by simp [hd]))]
    rfl

theorem numVal_natDigits (n : Nat) : numVal (natDigits n) = some (n : Int) := by
  obtain ⟨hd, hne, hval⟩ := natDigits_spec n
  have hdig : ∀ c ∈ natDigits n, c.isDigit = true := fun c hc => (hd c hc).1
  have hok := numOk_of_digits _ hne hdig
  have hfil : (natDigits n).filter (· ≠ '_') = natDigits n := by
    apply List.filter_eq_self.mpr
    intro c hc
    simpa using (hd c hc).2.1
  rw [numVal, if_pos hok, hfil, hval]

theorem pyIntChars_natDigits (n : Nat) : pyIntChars (natDigits n) = some (n : Int) := by
  obtain ⟨hd, hne, -⟩ := natDigits_spec n
  cases hl : natDigits n with
  | nil => exact absurd hl hne
  | cons c cs =>
    have hc : c.isDigit = true := (hd c (by rw [hl]; simp)).1
    have hcp : c ≠ '+' := by intro hEq; subst hEq; simp [Char.isDigit] at hc
    have hcm : c ≠ '-' := by intro hEq; subst hEq; simp [Char.isDigit] at hc
    rw [pyIntChars, if_neg hcp, if_neg hcm, ← hl, numVal_natDigits]

theorem pyIntChars_intRepr (i : Int) : pyIntChars (intRepr i).data = some i := by
  by_cases h : i < 0
  · have hdata : (intRepr i).data = '-' :: natDigits (-i).toNat := by
      simp only [intRepr, if_pos h, natRepr]
      simp [String.data_append]
    rw [hdata]
    have h1 : pyIntChars ('-' :: natDigits (-i).toNat)
        = match numVal (natDigits (-i).toNat) with
          | some n => some (-n)
          | none => none := by
      simp [pyIntChars]
    rw [h1, numVal_natDigits]
    show some (-(((-i).toNat : Nat) : Int)) = some i
    congr 1
    omega
  · have hdata : (intRepr i).data = natDigits i.toNat := by
      simp only [intRepr, if_neg h, natRepr]
    rw [hdata, pyIntChars_natDigits]
    congr 1
    omega

/-- Tokens of a decimal integer representation. -/
theorem intRepr_isToken (i : Int) : isToken (intRepr i) := by
  obtain ⟨hd, hne, -⟩ := natDigits_spec i.toNat
  obtain ⟨hd', hne', -⟩ := natDigits_spec (-i).toNat
  by_cases h : i < 0
  · constructor
    · simp only [intRepr, if_pos h, natRepr]
      have : ("-" ++ (⟨natDigits (-i).toNat⟩ : String)).data
          = '-' :: natDigits (-i).toNat := by
        simp [String.data_append]
      simp [this]
    · intro c hc
      simp only [intRepr, if_pos h, natRepr] at hc
      have : ("-" ++ (⟨natDigits (-i).toNat⟩ : String)).data
          = '-' :: natDigits (-i).toNat := by
        simp [String.data_append]
      rw [this] at hc
      rcases List.mem_cons.mp hc with hc | hc
      · subst hc; decide
      · exact (hd' c hc).2.2
  · constructor
    · simp only [intRepr, if_neg h, natRepr]
      simpa using hne
    · intro c hc
      simp only [intRepr, if_neg h, natRepr] at hc
      exact (hd c hc).2.2

theorem natRepr_isToken (n : Nat) : isToken (natRepr n) := by
  obtain ⟨hd, hne, -⟩ := natDigits_spec n
  exact ⟨by simpa [natRepr] using hne, fun c hc => (hd c (by simpa [natRepr] using hc)).2.2⟩

/-! ### `words` lemmas -/

theorem wordsAux_token_sep (t : List Char) (ht : ∀ c ∈ t, isWs c = false) :
    ∀ (rest acc : List Char),
      wordsAux (t ++ ' ' :: rest) acc =
      (if acc.reverse ++ t = [] then wordsAux rest []
       else (acc.reverse ++ t) :: wordsAux rest []) := by
  induction t with
  | nil =>
    intro rest acc
    simp only [List.nil_append, List.append_nil]
    rw [wordsAux]
    have : isWs ' ' = true := by decide
    rw [if_pos this]
    by_cases ha : acc = []
    · subst ha; simp
    · rw [if_neg ha, if_neg (by simpa using ha)]
  | cons c cs ih =>
    intro rest acc
    have hc : isWs c = false := ht c (by simp)
    have hcs : ∀ d ∈ cs, isWs d = false := fun d hd => ht d (by simp [hd])
    simp only [List.cons_append]
    rw [wordsAux, if_neg (by simp [hc])]
    rw [ih hcs rest (c :: acc)]
    simp

theorem wordsAux_all_token (t : List Char) (ht : ∀ c ∈ t, isWs c = false) :
    ∀ acc, wordsAux t acc =
      (if acc.reverse ++ t = [] then [] else [acc.reverse ++ t]) := by
  induction t with
  | nil =>
    intro acc
    rw [wordsAux]
    by_cases ha : acc = []
    · subst ha; simp
    · rw [if_neg ha, if_neg (by simpa using ha)]
      simp
  | cons c cs ih =>
    intro acc
    have hc : isWs c = false := ht c (by simp)
    rw [wordsAux, if_neg (by simp [hc])]
    rw [ih (fun d hd => ht d (by simp [hd])) (c :: acc)]
    simp

/-- Splitting a line that begins with a whitespace-free token followed by
a single space: the token is the first word. -/
theorem words_token_sep (t rest : List Char) (hne : t ≠ [])
    (ht : ∀ c ∈ t, isWs c = false) :
    words (t ++ ' ' :: rest) = t :: words rest := by
  unfold words
  rw [wordsAux_token_sep t ht rest []]
  simp [hne]

theorem words_all_token (t : List Char) (hne : t ≠ [])
    (ht : ∀ c ∈ t, isWs c = false) :
    words t = [t] := by
  unfold words
  rw [wordsAux_all_token t ht []]
  simp [hne]

/-! ### `trimChars` is the identity on lines with non-whitespace ends -/

theorem trimChars_eq_self (l : List Char)
    (hh : ∀ c, l.head? = some c → isWs c = false)
    (ht : ∀ c, l.getLast? = some c → isWs c = false) :
    trimChars l = l := by
  unfold trimChars
  have h1 : l.dropWhile isWs = l := by
    cases l with
    | nil => rfl
    | cons c cs =>
      have hc : isWs c = false := hh c (by simp)
      simp [List.dropWhile_cons, hc]
  rw [h1]
  have h2 : l.reverse.dropWhile isWs = l.reverse := by
    cases hr : l.reverse with
    | nil => rfl
    | cons c cs =>
      have hhead : l.reverse.head? = some c := by rw [hr]; rfl
      rw [List.head?_reverse] at hhead
      have hc : isWs c = false := ht c hhead
      simp [List.dropWhile_cons, hc]
  rw [h2, List.reverse_reverse]

theorem dedupByKey_eq_self {α β : Type} [DecidableEq β] (key : α → β) :
    ∀ (cs : List α) (seen : List β), (cs.map key).Nodup →
      (∀ c ∈ cs, key c ∉ seen) → dedupByKey key seen cs = cs := by
  intro cs
  induction cs with
  | nil => intro seen _ _; rfl
  | cons c cs ih =>
    intro seen hnd hdisj
    rw [List.map_cons, List.nodup_cons] at hnd
    rw [dedupByKey, if_neg (hdisj c (by simp))]
    congr 1
    apply ih _ hnd.2
    intro d hd
    simp only [List.mem_cons]
    rintro (h | h)
    · exact hnd.1 (h ▸ List.mem_map_of_mem key hd)
    · exact hdisj d (by simp [hd]) h

theorem dedupFirst_eq_self {α : Type} [DecidableEq α] (l : List α) (h : l.Nodup) :
    dedupFirst l = l := by
  unfold dedupFirst
  apply dedupByKey_eq_self
  · simpa using h
  · simp

/-- Scenario A of the specification, checked against the embedding. -/
example : parse ["Version 4", "SHEET 1 880 680", "SYMBOL res 100 100 R0",
    "SYMATTR InstName R1", "WIRE 0 0 100 0"] =
    .ok ⟨some "4", some ⟨1, 880, 680⟩,
      [⟨"comp_1", "res", 100, 100, "R0", [("name", "R1")]⟩],
      [⟨0, 0, 100, 0⟩], []⟩ := by decide

theorem closeCur_cur (st : ParseSt) : (closeCur st).cur = none := by
  cases h : st.cur <;> simp [closeCur, h]

theorem except_bind_eq_ok {ε α β : Type} {x : Except ε α} {f : α → Except ε β} {b : β}
    (h : (x >>= f) = .ok b) : ∃ a, x = .ok a ∧ f a = .ok b := by
  cases x with
  | ok a => exact ⟨a, rfl, by simpa [Bind.bind, Except.bind] using h⟩
  | error e => simp [Bind.bind, Except.bind] at h

theorem except_bind_ok_iff {ε α β : Type} (x : Except ε α) (f : α → Except ε β) :
    (∃ b, (x >>= f) = .ok b) ↔ ∃ a, x = .ok a ∧ ∃ b, f a = .ok b := by
  cases x <;> simp [Bind.bind, Except.bind]

theorem except_error_iff {ε α : Type} (x : Except ε α) :
    (∃ e, x = .error e) ↔ ¬ ∃ a, x = .ok a := by
  cases x <;> simp

theorem getTok_eq_ok_iff {ps : List (List Char)} {i : Nat} {t : List Char} :
    getTok ps i = .ok t ↔ ps[i]? = some t := by
  unfold getTok
  cases h : ps[i]? <;> simp [getTok, h]

theorem toInt_eq_ok_iff {t : List Char} {n : Int} :
    toInt t = .ok n ↔ pyIntChars t = some n := by
  unfold toInt
  cases pyIntChars t <;> simp

theorem tokInt_true_iff (ps : List (List Char)) (i : Nat) :
    tokInt ps i = true ↔ ∃ t n, ps[i]? = some t ∧ pyIntChars t = some n := by
  unfold tokInt
  cases h : ps[i]? <;> simp [h, Option.isSome_iff_exists]

theorem pure_eq_ok {α : Type} {a b : α} :
    (pure a : Except PyErr α) = .ok b ↔ a = b := by
  simp [pure, Except.pure]

theorem pure_ok_exists {α : Type} (a : α) :
    (∃ b, (pure a : Except PyErr α) = .ok b) ↔ True := by
  simp [pure, Except.pure]

theorem tokChain_ok_iff {β : Type} (ps : List (List Char)) (i : Nat)
    (f : List Char → Except PyErr β) :
    (∃ b, (getTok ps i >>= f) = .ok b) ↔
      ∃ t, ps[i]? = some t ∧ ∃ b, f t = .ok b := by
  cases hg : ps[i]? <;> simp [getTok, hg, Bind.bind, Except.bind]

theorem toIntChain_ok_iff {β : Type} (t : List Char) (f : Int → Except PyErr β) :
    (∃ b, (toInt t >>= f) = .ok b) ↔
      ∃ n, pyIntChars t = some n ∧ ∃ b, f n = .ok b := by
  cases hi : pyIntChars t <;> simp [toInt, hi, Bind.bind, Except.bind]

theorem addSymattr_ok_iff (attrs : List (String × String)) (t : String) :
    (∃ a, addSymattr attrs t = .ok a) ↔ ((words t.data)[1]?).isSome = true := by
  unfold addSymattr
  rw [tokChain_ok_iff]
  constructor
  · rintro ⟨tok, htok, -⟩
    simp [htok]
  · intro h
    obtain ⟨tok, htok⟩ := Option.isSome_iff_exists.mp h
    refine ⟨tok, htok, ?_⟩
    split <;> exact ⟨_, rfl⟩

theorem parseSymbolLine_ok_iff (counter : Nat) (t : String) :
    (∃ c, parseSymbolLine counter t = .ok c) ↔
      (((words t.data)[1]?).isSome && tokInt (words t.data) 2 && tokInt (words t.data) 3
        && ((words t.data)[4]?).isSome) = true := by
  unfold parseSymbolLine
  simp only [tokChain_ok_iff, toIntChain_ok_iff, pure_ok_exists, and_true,
    tokInt_true_iff, Bool.and_eq_true, Option.isSome_iff_exists]
  aesop

theorem parseWireLine_ok_iff (t : String) :
    (∃ w, parseWireLine t = .ok w) ↔
      (tokInt (words t.data) 1 && tokInt (words t.data) 2 && tokInt (words t.data) 3
        && tokInt (words t.data) 4) = true := by
  unfold parseWireLine
  simp only [tokChain_ok_iff, toIntChain_ok_iff, pure_ok_exists, and_true,
    tokInt_true_iff, Bool.and_eq_true]
  aesop

theorem parseFlagLine_ok_iff (t : String) :
    (∃ f, parseFlagLine t = .ok f) ↔
      (tokInt (words t.data) 1 && tokInt (words t.data) 2
        && ((words t.data)[3]?).isSome) = true := by
  unfold parseFlagLine
  simp only [tokChain_ok_iff, toIntChain_ok_iff, pure_ok_exists, and_true,
    tokInt_true_iff, Bool.and_eq_true, Option.isSome_iff_exists]
  aesop

/-- Success of one parser step is exactly line well-formedness. -/
theorem parseStep_ok_iff (st : ParseSt) (l : String) :
    (∃ st', parseStep st l = .ok st') ↔ wfStep st.cur.isSome l = true := by
  by_cases h1 : pyStartsWith (pyStrip l) "SYMATTR"
  · simp only [parseStep, wfStep, h1, eq_self_iff_true, Bool.false_eq_true, if_true, if_false]
    cases hcur : st.cur with
    | none => simp [pure_eq_ok]
    | some c =>
      simp only [Option.isSome_some, Bool.not_true, Bool.false_or]
      rw [except_bind_ok_iff]
      simp only [pure_ok_exists, and_true]
      exact addSymattr_ok_iff c.attributes (pyStrip l)
  · by_cases h2 : pyStartsWith (pyStrip l) "Version"
    · simp only [parseStep, wfStep, h1, h2, eq_self_iff_true, Bool.false_eq_true, if_true, if_false]
      rw [tokChain_ok_iff]
      simp [Option.isSome_iff_exists, pure, Except.pure]
    · by_cases h3 : pyStartsWith (pyStrip l) "SHEET"
      · simp only [parseStep, wfStep, h1, h2, h3, eq_self_iff_true, Bool.false_eq_true, if_true, if_false]
        simp only [tokChain_ok_iff, toIntChain_ok_iff, pure_ok_exists, and_true,
          tokInt_true_iff, Bool.and_eq_true]
        aesop
      · by_cases h4 : pyStartsWith (pyStrip l) "SYMBOL"
        · simp only [parseStep, wfStep, h1, h2, h3, h4, eq_self_iff_true, Bool.false_eq_true, if_true, if_false]
          rw [except_bind_ok_iff]
          simp only [pure_ok_exists, and_true]
          exact parseSymbolLine_ok_iff (closeCur st).counter (pyStrip l)
        · by_cases h5 : pyStartsWith (pyStrip l) "WIRE"
          · simp only [parseStep, wfStep, h1, h2, h3, h4, h5, eq_self_iff_true, Bool.false_eq_true, if_true, if_false]
            rw [except_bind_ok_iff]
            simp only [pure_ok_exists, and_true]
            exact parseWireLine_ok_iff (pyStrip l)
          · by_cases h6 : pyStartsWith (pyStrip l) "FLAG"
            · simp only [parseStep, wfStep, h1, h2, h3, h4, h5, h6, eq_self_iff_true, Bool.false_eq_true, if_true, if_false]
              rw [except_bind_ok_iff]
              simp only [pure_ok_exists, and_true]
              exact parseFlagLine_ok_iff (pyStrip l)
            · simp only [parseStep, wfStep, h1, h2, h3, h4, h5, h6, eq_self_iff_true, Bool.false_eq_true, if_true, if_false]
              simp [pure_eq_ok]

/-- A successful parser step leaves a `SYMBOL` block open exactly as
`nextHasCur` says. -/
theorem parseStep_cur (st : ParseSt) (l : String) :
    ∀ st', parseStep st l = .ok st' → st'.cur.isSome = nextHasCur st.cur.isSome l := by
  intro st' hst'
  by_cases h1 : pyStartsWith (pyStrip l) "SYMATTR"
  · simp only [parseStep, h1, eq_self_iff_true, Bool.false_eq_true, if_true, if_false] at hst'
    simp only [nextHasCur, h1, eq_self_iff_true, Bool.false_eq_true, if_true, if_false]
    cases hcur : st.cur with
    | none =>
      rw [hcur] at hst'
      rw [pure_eq_ok] at hst'
      subst hst'
      simp [hcur]
    | some c =>
      rw [hcur] at hst'
      obtain ⟨attrs, -, hp⟩ := except_bind_eq_ok hst'
      rw [pure_eq_ok] at hp
      subst hp
      simp [hcur]
  · by_cases h2 : pyStartsWith (pyStrip l) "Version"
    · simp only [parseStep, h1, h2, eq_self_iff_true, Bool.false_eq_true, if_true, if_false] at hst'
      simp only [nextHasCur, h1, h2, eq_self_iff_true, Bool.false_eq_true, if_true, if_false]
      obtain ⟨t, -, hp⟩ := except_bind_eq_ok hst'
      rw [pure_eq_ok] at hp
      subst hp
      simp [closeCur_cur]
    · by_cases h3 : pyStartsWith (pyStrip l) "SHEET"
      · simp only [parseStep, h1, h2, h3, eq_self_iff_true, Bool.false_eq_true, if_true, if_false] at hst'
        simp only [nextHasCur, h1, h2, h3, eq_self_iff_true, Bool.false_eq_true, if_true, if_false]
        obtain ⟨t1, -, hst'⟩ := except_bind_eq_ok hst'
        obtain ⟨n1, -, hst'⟩ := except_bind_eq_ok hst'
        obtain ⟨t2, -, hst'⟩ := except_bind_eq_ok hst'
        obtain ⟨n2, -, hst'⟩ := except_bind_eq_ok hst'
        obtain ⟨t3, -, hst'⟩ := except_bind_eq_ok hst'
        obtain ⟨n3, -, hst'⟩ := except_bind_eq_ok hst'
        rw [pure_eq_ok] at hst'
        subst hst'
        simp [closeCur_cur]
      · by_cases h4 : pyStartsWith (pyStrip l) "SYMBOL"
        · simp only [parseStep, h1, h2, h3, h4, eq_self_iff_true, Bool.false_eq_true, if_true, if_false] at hst'
          simp only [nextHasCur, h1, h2, h3, h4, eq_self_iff_true, Bool.false_eq_true, if_true, if_false]
          obtain ⟨c, -, hp⟩ := except_bind_eq_ok hst'
          rw [pure_eq_ok] at hp
          subst hp
          simp
        · by_cases h5 : pyStartsWith (pyStrip l) "WIRE"
          · simp only [parseStep, h1, h2, h3, h4, h5, eq_self_iff_true, Bool.false_eq_true, if_true, if_false] at hst'
            simp only [nextHasCur, h1, h2, h3, h4, h5, eq_self_iff_true, Bool.false_eq_true, if_true, if_false]
            obtain ⟨w, -, hp⟩ := except_bind_eq_ok hst'
            rw [pure_eq_ok] at hp
            subst hp
            simp [closeCur_cur]
          · by_cases h6 : pyStartsWith (pyStrip l) "FLAG"
            · simp only [parseStep, h1, h2, h3, h4, h5, h6, eq_self_iff_true, Bool.false_eq_true, if_true, if_false] at hst'
              simp only [nextHasCur, h1, h2, h3, h4, h5, h6, eq_self_iff_true, Bool.false_eq_true, if_true, if_false]
              obtain ⟨f, -, hp⟩ := except_bind_eq_ok hst'
              rw [pure_eq_ok] at hp
              subst hp
              simp [closeCur_cur]
            · simp only [parseStep, h1, h2, h3, h4, h5, h6, eq_self_iff_true, Bool.false_eq_true, if_true, if_false] at hst'
              simp only [nextHasCur, h1, h2, h3, h4, h5, h6, eq_self_iff_true, Bool.false_eq_true, if_true, if_false]
              rw [pure_eq_ok] at hst'
              subst hst'
              simp [closeCur_cur]

/-- Success of the parser loop is exactly document well-formedness. -/
theorem runParse_ok_iff : ∀ (ls : List String) (st : ParseSt),
    (∃ st', runParse ls st = .ok st') ↔ wfLines ls st.cur.isSome = true := by
  intro ls
  induction ls with
  | nil => intro st; simp [runParse, wfLines]
  | cons l ls ih =>
    intro st
    show (∃ st', (parseStep st l >>= runParse ls) = .ok st') ↔ _
    rw [except_bind_ok_iff]
    simp only [wfLines, Bool.and_eq_true]
    constructor
    · rintro ⟨st1, hst1, st2, hst2⟩
      refine ⟨(parseStep_ok_iff st l).mp ⟨st1, hst1⟩, ?_⟩
      have hcur := parseStep_cur st l st1 hst1
      rw [← hcur]
      exact (ih st1).mp ⟨st2, hst2⟩
    · rintro ⟨hwf, hrest⟩
      obtain ⟨st1, hst1⟩ := (parseStep_ok_iff st l).mpr hwf
      have hcur := parseStep_cur st l st1 hst1
      obtain ⟨st2, hst2⟩ := (ih st1).mpr (by rw [hcur]; exact hrest)
      exact ⟨st1, hst1, st2, hst2⟩

theorem parse_ok_iff (ls : List String) :
    (∃ S, parse ls = .ok S) ↔ wfLines ls false = true := by
  unfold parse
  rw [except_bind_ok_iff]
  simp only [pure_ok_exists, and_true]
  have h := runParse_ok_iff ls initSt
  simpa [initSt] using h

/-- C6 (amended): the parser fails exactly when a recognized keyword line
has fewer tokens than the source indexes or a numeric token is not an
integer (`wfLines` states precisely these per-keyword conditions), and
the failure aborts the entire parse.  The error, however, is a plain
`IndexError`/`ValueError` — the source defines no `MalformedLineError`
and attaches no line number or line content. -/
theorem C6_parse_error_iff_malformed (ls : List String) :
    (∃ e, parse ls = .error e) ↔ wfLines ls false = false := by
  rw [except_error_iff, parse_ok_iff]
  cases h : wfLines ls false <;> simp [h]

/-- C6 counterexample to the claim as stated: a `SHEET` line with a
missing token aborts the parse with a bare `IndexError` value that
carries neither a line number nor the line content (the embedding's
`PyErr` type has no malformed-line constructor because the source raises
only the built-in exceptions). -/
theorem C6_counterexample_plain_index_error :
    parse ["SHEET 1 880"] = .error PyErr.indexError ∧
    parse ["WIRE 0 abc 5 5"] = .error (PyErr.valueError "abc") := by
  constructor <;> decide

/-- C10: a `SYMATTR` line reached by the main parse loop with no open
`SYMBOL` block (that is, one that does not immediately follow a `SYMBOL`
line or the `SYMATTR` lines of its block, which are consumed before the
loop resumes) matches none of the keyword branches: it raises no error
and leaves the entire parser state — version, sheet, components, wires,
flags — exactly as if the line were absent.  In particular a document
beginning with such a line parses identically with the line removed. -/
theorem C10_stray_symattr_skipped (st : ParseSt) (l : String) (post : List String)
    (hattr : pyStartsWith (pyStrip l) "SYMATTR" = true)
    (hcur : st.cur = none) :
    runParse (l :: post) st = runParse post st ∧
    parse (l :: post) = parse post := by
  have hstep : ∀ (s : ParseSt), s.cur = none → parseStep s l = .ok s := by
    intro s hs
    simp only [parseStep, hattr, eq_self_iff_true, if_true, hs]
    rfl
  constructor
  · show (parseStep st l >>= runParse post) = runParse post st
    rw [hstep st hcur]
    simp [Bind.bind, Except.bind]
  · unfold parse
    have hrun : runParse (l :: post) initSt = runParse post initSt := by
      show (parseStep initSt l >>= runParse post) = runParse post initSt
      rw [hstep initSt rfl]
      simp [Bind.bind, Except.bind]
    rw [hrun]

/-- C10 witness: a concrete stray `SYMATTR` line (following a `WIRE`
line, hence with no open `SYMBOL` block) is skipped. -/
theorem C10_witness :
    runParse ["SYMATTR InstName R1", "FLAG 0 0 vcc"] initSt =
      runParse ["FLAG 0 0 vcc"] initSt ∧
    parse ["SYMATTR InstName R1", "FLAG 0 0 vcc"] = parse ["FLAG 0 0 vcc"] :=
  C10_stray_symattr_skipped initSt "SYMATTR InstName R1" ["FLAG 0 0 vcc"]
    (by decide) rfl

example : serialize ⟨some "4", some ⟨1, 880, 680⟩,
    [⟨"comp_1", "res", 100, 100, "R0", [("name", "R1")]⟩], [⟨0, 0, 100, 0⟩], []⟩ =
    ["Version 4", "SHEET 1 880 680", "SYMBOL res 100 100 R0",
     "SYMATTR InstName R1", "WIRE 0 0 100 0"] := by decide

/-! ## How the parser reads one serialized line -/

theorem isToken_tokC {s : String} (h : isToken s) : tokC s.data := h

theorem tokC_intRepr (i : Int) : tokC (intRepr i).data := intRepr_isToken i

theorem sepSpace_cons (t : List Char) (ts : List (List Char)) :
    sepSpace (t :: ts) = t ++ (if ts = [] then [] else ' ' :: sepSpace ts) := by
  cases ts <;> simp [sepSpace]

theorem words_sepSpace : ∀ (ts : List (List Char)), ts ≠ [] →
    (∀ t ∈ ts, tokC t) → words (sepSpace ts) = ts := by
  intro ts
  induction ts with
  | nil => intro h; exact absurd rfl h
  | cons t ts ih =>
    intro _ h
    obtain ⟨htne, htws⟩ := h t (by simp)
    cases ts with
    | nil => exact words_all_token t htne htws
    | cons t2 ts2 =>
      show words (t ++ ' ' :: sepSpace (t2 :: ts2)) = t :: t2 :: ts2
      rw [words_token_sep t _ htne htws]
      congr 1
      exact ih (by simp) (fun u hu => h u (by simp [hu]))

theorem sepSpace_ne_nil (t : List Char) (ts : List (List Char)) (h : t ≠ []) :
    sepSpace (t :: ts) ≠ [] := by
  rw [sepSpace_cons]
  simp [h]

theorem sepSpace_head? (t : List Char) (ts : List (List Char)) (h : t ≠ []) :
    (sepSpace (t :: ts)).head? = t.head? := by
  rw [sepSpace_cons]
  split
  · simp
  · exact List.head?_append_of_ne_nil _ h

theorem sepSpace_getLast? : ∀ (ts : List (List Char)), (∀ t ∈ ts, t ≠ []) →
    ∀ t, ts.getLast? = some t → (sepSpace ts).getLast? = t.getLast? := by
  intro ts
  induction ts with
  | nil => intro _ t h; simp at h
  | cons u ts ih =>
    intro h t hlast
    cases ts with
    | nil =>
      simp at hlast
      subst hlast
      rfl
    | cons u2 ts2 =>
      have hlast2 : (u2 :: ts2).getLast? = some t := by
        rw [List.getLast?_cons_cons] at hlast
        exact hlast
      show (u ++ ' ' :: sepSpace (u2 :: ts2)).getLast? = t.getLast?
      have hne : sepSpace (u2 :: ts2) ≠ [] :=
        sepSpace_ne_nil u2 ts2 (h u2 (by simp))
      rw [List.getLast?_append_of_ne_nil _ (by simp : (' ' :: sepSpace (u2 :: ts2)) ≠ [])]
      rw [show (' ' :: sepSpace (u2 :: ts2)) = [' '] ++ sepSpace (u2 :: ts2) from rfl]
      rw [List.getLast?_append_of_ne_nil _ hne]
      exact ih (fun v hv => h v (by simp [hv])) t hlast2

/-- A keyword line of space-separated tokens strips to itself. -/
theorem pyStrip_sepSpace (ts : List (List Char)) (hne : ts ≠ [])
    (h : ∀ t ∈ ts, tokC t) :
    pyStrip ⟨sepSpace ts⟩ = (⟨sepSpace ts⟩ : String) := by
  unfold pyStrip
  congr 1
  cases ts with
  | nil => exact absurd rfl hne
  | cons t ts =>
    apply trimChars_eq_self
    · intro c hc
      rw [sepSpace_head? t ts (h t (by simp)).1] at hc
      exact (h t (by simp)).2 c (List.mem_of_mem_head? hc)
    · intro c hc
      obtain ⟨u, hu⟩ : ∃ u, (t :: ts).getLast? = some u := by
        cases hlast : (t :: ts).getLast? with
        | none => simp at hlast
        | some u => exact ⟨u, rfl⟩
      have hmem : u ∈ t :: ts := List.mem_of_mem_getLast? (by rw [hu]; rfl)
      rw [sepSpace_getLast? (t :: ts) (fun v hv => (h v hv).1) u hu] at hc
      exact (h u hmem).2 c (List.mem_of_mem_getLast? hc)

/-- A keyword line starts with its own keyword. -/
theorem pyStartsWith_self (kw : String) (rest : List (List Char)) :
    pyStartsWith ⟨sepSpace (kw.data :: rest)⟩ kw = true := by
  unfold pyStartsWith
  show kw.data.isPrefixOf (sepSpace (kw.data :: rest)) = true
  rw [sepSpace_cons, List.isPrefixOf_iff_prefix]
  exact ⟨_, rfl⟩

/-! Pairwise non-prefix facts between the keywords, each stated against a
line beginning with the other keyword. -/

theorem npf_symattr_version (x : List Char) :
    ("SYMATTR".data).isPrefixOf ("Version".data ++ x) = false := by
  show ("SYMATTR".data).isPrefixOf ('V':: 'e':: 'r':: 's':: 'i':: 'o':: 'n'::x) = false
  simp [List.isPrefixOf]

theorem npf_symattr_sheet (x : List Char) :
    ("SYMATTR".data).isPrefixOf ("SHEET".data ++ x) = false := by
  show ("SYMATTR".data).isPrefixOf ('S':: 'H':: 'E':: 'E':: 'T'::x) = false
  simp [List.isPrefixOf]

theorem npf_symattr_symbol (x : List Char) :
    ("SYMATTR".data).isPrefixOf ("SYMBOL".data ++ x) = false := by
  show ("SYMATTR".data).isPrefixOf ('S':: 'Y':: 'M':: 'B':: 'O':: 'L'::x) = false
  simp [List.isPrefixOf]

theorem npf_symattr_wire (x : List Char) :
    ("SYMATTR".data).isPrefixOf ("WIRE".data ++ x) = false := by
  show ("SYMATTR".data).isPrefixOf ('W':: 'I':: 'R':: 'E'::x) = false
  simp [List.isPrefixOf]

theorem npf_symattr_flag (x : List Char) :
    ("SYMATTR".data).isPrefixOf ("FLAG".data ++ x) = false := by
  show ("SYMATTR".data).isPrefixOf ('F':: 'L':: 'A':: 'G'::x) = false
  simp [List.isPrefixOf]

theorem npf_version_sheet (x : List Char) :
    ("Version".data).isPrefixOf ("SHEET".data ++ x) = false := by
  show ("Version".data).isPrefixOf ('S':: 'H':: 'E':: 'E':: 'T'::x) = false
  simp [List.isPrefixOf]

theorem npf_version_symbol (x : List Char) :
    ("Version".data).isPrefixOf ("SYMBOL".data ++ x) = false := by
  show ("Version".data).isPrefixOf ('S':: 'Y':: 'M':: 'B':: 'O':: 'L'::x) = false
  simp [List.isPrefixOf]

theorem npf_version_wire (x : List Char) :
    ("Version".data).isPrefixOf ("WIRE".data ++ x) = false := by
  show ("Version".data).isPrefixOf ('W':: 'I':: 'R':: 'E'::x) = false
  simp [List.isPrefixOf]

theorem npf_version_flag (x : List Char) :
    ("Version".data).isPrefixOf ("FLAG".data ++ x) = false := by
  show ("Version".data).isPrefixOf ('F':: 'L':: 'A':: 'G'::x) = false
  simp [List.isPrefixOf]

theorem npf_version_symattr (x : List Char) :
    ("Version".data).isPrefixOf ("SYMATTR".data ++ x) = false := by
  show ("Version".data).isPrefixOf ('S':: 'Y':: 'M':: 'A':: 'T':: 'T':: 'R'::x) = false
  simp [List.isPrefixOf]

theorem npf_sheet_symbol (x : List Char) :
    ("SHEET".data).isPrefixOf ("SYMBOL".data ++ x) = false := by
  show ("SHEET".data).isPrefixOf ('S':: 'Y':: 'M':: 'B':: 'O':: 'L'::x) = false
  simp [List.isPrefixOf]

theorem npf_sheet_wire (x : List Char) :
    ("SHEET".data).isPrefixOf ("WIRE".data ++ x) = false := by
  show ("SHEET".data).isPrefixOf ('W':: 'I':: 'R':: 'E'::x) = false
  simp [List.isPrefixOf]

theorem npf_sheet_flag (x : List Char) :
    ("SHEET".data).isPrefixOf ("FLAG".data ++ x) = false := by
  show ("SHEET".data).isPrefixOf ('F':: 'L':: 'A':: 'G'::x) = false
  simp [List.isPrefixOf]

theorem npf_symbol_wire (x : List Char) :
    ("SYMBOL".data).isPrefixOf ("WIRE".data ++ x) = false := by
  show ("SYMBOL".data).isPrefixOf ('W':: 'I':: 'R':: 'E'::x) = false
  simp [List.isPrefixOf]

theorem npf_symbol_flag (x : List Char) :
    ("SYMBOL".data).isPrefixOf ("FLAG".data ++ x) = false := by
  show ("SYMBOL".data).isPrefixOf ('F':: 'L':: 'A':: 'G'::x) = false
  simp [List.isPrefixOf]

theorem npf_wire_flag (x : List Char) :
    ("WIRE".data).isPrefixOf ("FLAG".data ++ x) = false := by
  show ("WIRE".data).isPrefixOf ('F':: 'L':: 'A':: 'G'::x) = false
  simp [List.isPrefixOf]

theorem wordsAux_tokC : ∀ (l acc : List Char), (∀ c ∈ acc, isWs c = false) →
    ∀ t ∈ wordsAux l acc, tokC t := by
  intro l
  induction l with
  | nil =>
    intro acc hacc t ht
    rw [wordsAux] at ht
    split at ht
    · simp at ht
    · rename_i hne
      simp only [List.mem_singleton] at ht
      subst ht
      exact ⟨by simpa using hne, fun c hc => hacc c (by simpa using hc)⟩
  | cons c cs ih =>
    intro acc hacc t ht
    rw [wordsAux] at ht
    split at ht
    · split at ht
      · exact ih [] (by simp) t ht
      · rename_i hne
        rcases List.mem_cons.mp ht with h | h
        · subst h
          exact ⟨by simpa using hne, fun d hd => hacc d (by simpa using hd)⟩
        · exact ih [] (by simp) t h
    · rename_i hws
      refine ih (c :: acc) ?_ t ht
      intro d hd
      rcases List.mem_cons.mp hd with h | h
      · subst h; simpa using hws
      · exact hacc d h

theorem words_tokC (l : List Char) : ∀ t ∈ words l, tokC t :=
  wordsAux_tokC l [] (by simp)

theorem closeCur_counter (st : ParseSt) : (closeCur st).counter = st.counter := by
  cases h : st.cur <;> simp [closeCur, h]

theorem closeCur_wires (st : ParseSt) : (closeCur st).wires = st.wires := by
  cases h : st.cur <;> simp [closeCur, h]

theorem closeCur_flags (st : ParseSt) : (closeCur st).flags = st.flags := by
  cases h : st.cur <;> simp [closeCur, h]

/-! ### What one parser step does to each serialized line -/

theorem parseStep_versionLine (st : ParseSt) (v : String) (hv : isToken v) :
    parseStep st (versionLine v) = .ok { closeCur st with version := some v } := by
  have harg : ∀ t ∈ ["Version".data, v.data], tokC t := by
    intro t ht
    rcases List.mem_cons.mp ht with h | h
    · subst h; decide
    · simp only [List.mem_singleton] at h
      subst h
      exact hv
  have hstrip : pyStrip (versionLine v) = versionLine v :=
    pyStrip_sepSpace _ (by simp) harg
  have hdata : (versionLine v).data = "Version".data ++ ' ' :: v.data := rfl
  have h1 : pyStartsWith (versionLine v) "SYMATTR" = false := by
    unfold pyStartsWith
    rw [hdata]
    exact npf_symattr_version _
  have h2 : pyStartsWith (versionLine v) "Version" = true :=
    pyStartsWith_self "Version" [v.data]
  have hwords : words (versionLine v).data = ["Version".data, v.data] :=
    words_sepSpace _ (by simp) harg
  simp only [parseStep, hstrip, h1, h2, eq_self_iff_true, Bool.false_eq_true,
    if_true, if_false, hwords]
  simp [getTok, Bind.bind, Except.bind, pure, Except.pure]

theorem parseStep_sheetLine (st : ParseSt) (sh : Sheet) :
    parseStep st (sheetLine sh) = .ok { closeCur st with sheet := some sh } := by
  have harg : ∀ t ∈ ["SHEET".data, (intRepr sh.number).data, (intRepr sh.width).data,
      (intRepr sh.height).data], tokC t := by
    intro t ht
    rcases List.mem_cons.mp ht with h | ht
    · subst h; decide
    rcases List.mem_cons.mp ht with h | ht
    · subst h; exact tokC_intRepr _
    rcases List.mem_cons.mp ht with h | ht
    · subst h; exact tokC_intRepr _
    simp only [List.mem_singleton] at ht
    subst ht
    exact tokC_intRepr _
  have hstrip : pyStrip (sheetLine sh) = sheetLine sh :=
    pyStrip_sepSpace _ (by simp) harg
  have hdata : (sheetLine sh).data = "SHEET".data ++ ' ' :: sepSpace
      [(intRepr sh.number).data, (intRepr sh.width).data, (intRepr sh.height).data] := rfl
  have h1 : pyStartsWith (sheetLine sh) "SYMATTR" = false := by
    unfold pyStartsWith
    rw [hdata]
    exact npf_symattr_sheet _
  have h2 : pyStartsWith (sheetLine sh) "Version" = false := by
    unfold pyStartsWith
    rw [hdata]
    exact npf_version_sheet _
  have h3 : pyStartsWith (sheetLine sh) "SHEET" = true :=
    pyStartsWith_self "SHEET" _
  have hwords : words (sheetLine sh).data = ["SHEET".data, (intRepr sh.number).data,
      (intRepr sh.width).data, (intRepr sh.height).data] :=
    words_sepSpace _ (by simp) harg
  simp only [parseStep, hstrip, h1, h2, h3, eq_self_iff_true, Bool.false_eq_true,
    if_true, if_false, hwords]
  simp [getTok, toInt, pyIntChars_intRepr, Bind.bind, Except.bind, pure, Except.pure]

theorem parseStep_symbolLine (st : ParseSt) (c : Component)
    (htype : isToken c.type) (hrot : isToken c.rotation) :
    parseStep st (symbolLine c) =
      .ok { closeCur st with counter := st.counter + 1, cur := some (freshComp st.counter c) } := by
  have harg : ∀ t ∈ ["SYMBOL".data, c.type.data, (intRepr c.x).data, (intRepr c.y).data,
      c.rotation.data], tokC t := by
    intro t ht
    rcases List.mem_cons.mp ht with h | ht
    · subst h; decide
    rcases List.mem_cons.mp ht with h | ht
    · subst h; exact htype
    rcases List.mem_cons.mp ht with h | ht
    · subst h; exact tokC_intRepr _
    rcases List.mem_cons.mp ht with h | ht
    · subst h; exact tokC_intRepr _
    simp only [List.mem_singleton] at ht
    subst ht
    exact hrot
  have hstrip : pyStrip (symbolLine c) = symbolLine c :=
    pyStrip_sepSpace _ (by simp) harg
  have hdata : (symbolLine c).data = "SYMBOL".data ++ ' ' :: sepSpace
      [c.type.data, (intRepr c.x).data, (intRepr c.y).data, c.rotation.data] := rfl
  have h1 : pyStartsWith (symbolLine c) "SYMATTR" = false := by
    unfold pyStartsWith
    rw [hdata]
    exact npf_symattr_symbol _
  have h2 : pyStartsWith (symbolLine c) "Version" = false := by
    unfold pyStartsWith
    rw [hdata]
    exact npf_version_symbol _
  have h3 : pyStartsWith (symbolLine c) "SHEET" = false := by
    unfold pyStartsWith
    rw [hdata]
    exact npf_sheet_symbol _
  have h4 : pyStartsWith (symbolLine c) "SYMBOL" = true :=
    pyStartsWith_self "SYMBOL" _
  have hwords : words (symbolLine c).data = ["SYMBOL".data, c.type.data,
      (intRepr c.x).data, (intRepr c.y).data, c.rotation.data] :=
    words_sepSpace _ (by simp) harg
  simp only [parseStep, hstrip, h1, h2, h3, h4, eq_self_iff_true, Bool.false_eq_true,
    if_true, if_false, parseSymbolLine, hwords]
  simp [getTok, toInt, pyIntChars_intRepr, Bind.bind, Except.bind, pure, Except.pure,
    closeCur_counter, freshComp]

theorem parseStep_wireLine (st : ParseSt) (w : WireRec) :
    parseStep st (wireLine w) = .ok { closeCur st with wires := st.wires ++ [w] } := by
  have harg : ∀ t ∈ ["WIRE".data, (intRepr w.x1).data, (intRepr w.y1).data,
      (intRepr w.x2).data, (intRepr w.y2).data], tokC t := by
    intro t ht
    rcases List.mem_cons.mp ht with h | ht
    · subst h; decide
    rcases List.mem_cons.mp ht with h | ht
    · subst h; exact tokC_intRepr _
    rcases List.mem_cons.mp ht with h | ht
    · subst h; exact tokC_intRepr _
    rcases List.mem_cons.mp ht with h | ht
    · subst h; exact tokC_intRepr _
    simp only [List.mem_singleton] at ht
    subst ht
    exact tokC_intRepr _
  have hstrip : pyStrip (wireLine w) = wireLine w :=
    pyStrip_sepSpace _ (by simp) harg
  have hdata : (wireLine w).data = "WIRE".data ++ ' ' :: sepSpace
      [(intRepr w.x1).data, (intRepr w.y1).data, (intRepr w.x2).data,
       (intRepr w.y2).data] := rfl
  have h1 : pyStartsWith (wireLine w) "SYMATTR" = false := by
    unfold pyStartsWith
    rw [hdata]
    exact npf_symattr_wire _
  have h2 : pyStartsWith (wireLine w) "Version" = false := by
    unfold pyStartsWith
    rw [hdata]
    exact npf_version_wire _
  have h3 : pyStartsWith (wireLine w) "SHEET" = false := by
    unfold pyStartsWith
    rw [hdata]
    exact npf_sheet_wire _
  have h4 : pyStartsWith (wireLine w) "SYMBOL" = false := by
    unfold pyStartsWith
    rw [hdata]
    exact npf_symbol_wire _
  have h5 : pyStartsWith (wireLine w) "WIRE" = true :=
    pyStartsWith_self "WIRE" _
  have hwords : words (wireLine w).data = ["WIRE".data, (intRepr w.x1).data,
      (intRepr w.y1).data, (intRepr w.x2).data, (intRepr w.y2).data] :=
    words_sepSpace _ (by simp) harg
  simp only [parseStep, hstrip, h1, h2, h3, h4, h5, eq_self_iff_true, Bool.false_eq_true,
    if_true, if_false, parseWireLine, hwords]
  simp [getTok, toInt, pyIntChars_intRepr, Bind.bind, Except.bind, pure, Except.pure,
    closeCur_wires]

theorem parseStep_flagLine (st : ParseSt) (f : Flag) (hnet : isToken f.net_name) :
    parseStep st (flagLine f) = .ok { closeCur st with flags := st.flags ++ [f] } := by
  have harg : ∀ t ∈ ["FLAG".data, (intRepr f.x).data, (intRepr f.y).data,
      f.net_name.data], tokC t := by
    intro t ht
    rcases List.mem_cons.mp ht with h | ht
    · subst h; decide
    rcases List.mem_cons.mp ht with h | ht
    · subst h; exact tokC_intRepr _
    rcases List.mem_cons.mp ht with h | ht
    · subst h; exact tokC_intRepr _
    simp only [List.mem_singleton] at ht
    subst ht
    exact hnet
  have hstrip : pyStrip (flagLine f) = flagLine f :=
    pyStrip_sepSpace _ (by simp) harg
  have hdata : (flagLine f).data = "FLAG".data ++ ' ' :: sepSpace
      [(intRepr f.x).data, (intRepr f.y).data, f.net_name.data] := rfl
  have h1 : pyStartsWith (flagLine f) "SYMATTR" = false := by
    unfold pyStartsWith
    rw [hdata]
    exact npf_symattr_flag _
  have h2 : pyStartsWith (flagLine f) "Version" = false := by
    unfold pyStartsWith
    rw [hdata]
    exact npf_version_flag _
  have h3 : pyStartsWith (flagLine f) "SHEET" = false := by
    unfold pyStartsWith
    rw [hdata]
    exact npf_sheet_flag _
  have h4 : pyStartsWith (flagLine f) "SYMBOL" = false := by
    unfold pyStartsWith
    rw [hdata]
    exact npf_symbol_flag _
  have h5 : pyStartsWith (flagLine f) "WIRE" = false := by
    unfold pyStartsWith
    rw [hdata]
    exact npf_wire_flag _
  have h6 : pyStartsWith (flagLine f) "FLAG" = true :=
    pyStartsWith_self "FLAG" _
  have hwords : words (flagLine f).data = ["FLAG".data, (intRepr f.x).data,
      (intRepr f.y).data, f.net_name.data] :=
    words_sepSpace _ (by simp) harg
  simp only [parseStep, hstrip, h1, h2, h3, h4, h5, h6, eq_self_iff_true,
    Bool.false_eq_true, if_true, if_false, parseFlagLine, hwords]
  simp [getTok, toInt, pyIntChars_intRepr, Bind.bind, Except.bind, pure, Except.pure,
    closeCur_flags]

theorem setAttr_append (attrs : List (String × String)) (k v : String)
    (h : ∀ p ∈ attrs, p.1 ≠ k) : setAttr attrs k v = attrs ++ [(k, v)] := by
  unfold setAttr
  rw [if_neg]
  simp only [List.any_eq_true, not_exists, not_and]
  intro p hp
  simpa using h p hp

theorem mk_data_eq {s : String} : (⟨s.data⟩ : String) = s := rfl

theorem attrKey_cases (k : String) :
    (⟨(if k = "name" then "InstName" else k).data⟩ : String) =
      (if k = "name" then "InstName" else k) := rfl

theorem addSymattr_attrLine (attrs : List (String × String)) (k v : String)
    (hkey : isToken k) (hkeyne : k ≠ "InstName") (hval : normVal v)
    (hnotmem : ∀ p ∈ attrs, p.1 ≠ k) :
    addSymattr attrs (attrLine (k, v)) = .ok (attrs ++ [(k, v)]) ∧
    pyStrip (attrLine (k, v)) = attrLine (k, v) ∧
    pyStartsWith (attrLine (k, v)) "SYMATTR" = true := by
  have hkeytok : tokC (if k = "name" then "InstName" else k).data := by
    split
    · decide
    · exact hkey
  by_cases hv : v = ""
  · subst hv
    have hline : attrLine (k, "") =
        ⟨sepSpace ["SYMATTR".data, (if k = "name" then "InstName" else k).data]⟩ := by
      unfold attrLine
      rw [if_pos rfl]
    have harg : ∀ t ∈ ["SYMATTR".data,
        (if k = "name" then "InstName" else k).data], tokC t := by
      intro t ht
      rcases List.mem_cons.mp ht with h | ht
      · subst h; decide
      simp only [List.mem_singleton] at ht
      subst ht
      exact hkeytok
    have hwords : words (attrLine (k, "")).data =
        ["SYMATTR".data, (if k = "name" then "InstName" else k).data] := by
      rw [hline]
      exact words_sepSpace _ (by simp) harg
    refine ⟨?_, by rw [hline]; exact pyStrip_sepSpace _ (by simp) harg,
      by rw [hline]; exact pyStartsWith_self "SYMATTR" _⟩
    unfold addSymattr
    rw [hwords]
    show (getTok _ 1 >>= _) = _
    simp only [getTok, List.getElem?_cons_succ, List.getElem?_cons_zero,
      Bind.bind, Except.bind]
    rw [attrKey_cases]
    by_cases hn : k = "name"
    · subst hn
      rw [if_pos rfl]
      rw [setAttr_append _ _ _ hnotmem]
      rfl
    · rw [if_neg (by rw [if_neg hn]; exact hkeyne), if_neg hn]
      rw [setAttr_append _ _ _ hnotmem]
      rfl
  · have hvd : v.data ≠ [] := fun h => hv (String.ext h)
    have hval2 : sepSpace (words v.data) = v.data := congrArg String.data hval
    have hwne : words v.data ≠ [] := by
      intro h
      apply hvd
      rw [h] at hval2
      exact hval2.symm
    have hline : attrLine (k, v) = ⟨sepSpace ("SYMATTR".data ::
        (if k = "name" then "InstName" else k).data :: words v.data)⟩ := by
      unfold attrLine
      rw [if_neg hv]
      congr 1
      show sepSpace [_, _, _] = _
      rw [sepSpace_cons _ [_, v.data], sepSpace_cons _ [v.data],
        sepSpace_cons _ (_ :: words v.data), sepSpace_cons _ (words v.data)]
      simp [sepSpace, hwne, hval2]
    have harg : ∀ t ∈ ("SYMATTR".data ::
        (if k = "name" then "InstName" else k).data :: words v.data), tokC t := by
      intro t ht
      rcases List.mem_cons.mp ht with h | ht
      · subst h; decide
      rcases List.mem_cons.mp ht with h | ht
      · subst h; exact hkeytok
      exact words_tokC _ t ht
    have hwords : words (attrLine (k, v)).data = ("SYMATTR".data ::
        (if k = "name" then "InstName" else k).data :: words v.data) := by
      rw [hline]
      exact words_sepSpace _ (by simp) harg
    refine ⟨?_, by rw [hline]; exact pyStrip_sepSpace _ (by simp) harg,
      by rw [hline]; exact pyStartsWith_self "SYMATTR" _⟩
    unfold addSymattr
    rw [hwords]
    show (getTok _ 1 >>= _) = _
    simp only [getTok, List.getElem?_cons_succ, List.getElem?_cons_zero,
      Bind.bind, Except.bind]
    rw [attrKey_cases]
    have hdrop : ("SYMATTR".data ::
        (if k = "name" then "InstName" else k).data :: words v.data).drop 2 =
        words v.data := rfl
    rw [hdrop]
    by_cases hn : k = "name"
    · subst hn
      rw [if_pos rfl]
      rw [hval, setAttr_append _ _ _ hnotmem]
      rfl
    · rw [if_neg (by rw [if_neg hn]; exact hkeyne), if_neg hn]
      rw [hval, setAttr_append _ _ _ hnotmem]
      rfl

theorem parseStep_attrLine (st : ParseSt) (comp : Component) (k v : String)
    (hcur : st.cur = some comp)
    (hkey : isToken k) (hkeyne : k ≠ "InstName") (hval : normVal v)
    (hnotmem : ∀ p ∈ comp.attributes, p.1 ≠ k) :
    parseStep st (attrLine (k, v)) =
      .ok { st with cur := some { comp with attributes := comp.attributes ++ [(k, v)] } } := by
  obtain ⟨hadd, hstrip, hpre⟩ :=
    addSymattr_attrLine comp.attributes k v hkey hkeyne hval hnotmem
  simp only [parseStep, hstrip, hpre, eq_self_iff_true, if_true, hcur, hadd,
    Bind.bind, Except.bind, pure, Except.pure]

/-! ### Running the parser over the serialized lines -/

theorem runParse_cons_ok {st st' : ParseSt} {l : String} {rest : List String}
    (h : parseStep st l = .ok st') :
    runParse (l :: rest) st = runParse rest st' := by
  show (parseStep st l >>= runParse rest) = _
  rw [h]
  simp [Bind.bind, Except.bind]

/-- The attribute lines of a block extend the open component one by one. -/
theorem runParse_attrs : ∀ (kvs : List (String × String)) (st : ParseSt)
    (comp : Component) (rest : List String),
    st.cur = some comp →
    (∀ kv ∈ kvs, isToken kv.1 ∧ kv.1 ≠ "InstName" ∧ normVal kv.2) →
    ((comp.attributes ++ kvs).map Prod.fst).Nodup →
    runParse (kvs.map attrLine ++ rest) st =
      runParse rest { st with cur := some { comp with
        attributes := comp.attributes ++ kvs } } := by
  intro kvs
  induction kvs with
  | nil =>
    intro st comp rest hcur _ _
    simp only [List.map_nil, List.nil_append, List.append_nil]
    congr 1
    rw [← hcur]
  | cons kv kvs ih =>
    intro st comp rest hcur hwf hnd
    obtain ⟨hkey, hkeyne, hval⟩ := hwf kv (by simp)
    have hnotmem : ∀ p ∈ comp.attributes, p.1 ≠ kv.1 := by
      intro p hp hEq
      rw [List.map_append, List.nodup_append] at hnd
      have h1 : kv.1 ∈ comp.attributes.map Prod.fst :=
        hEq ▸ List.mem_map_of_mem Prod.fst hp
      exact hnd.2.2 h1 (by simp)
    obtain ⟨k, v⟩ := kv
    have hstep := parseStep_attrLine st comp k v hcur hkey hkeyne hval hnotmem
    rw [List.map_cons, List.cons_append, runParse_cons_ok hstep]
    rw [ih _ { comp with attributes := comp.attributes ++ [(k, v)] } rest rfl
      (fun kv h => hwf kv (by simp [h])) (by simpa using hnd)]
    simp

theorem runParse_blocks : ∀ (cs : List Component) (st : ParseSt) (rest : List String),
    (∀ c ∈ cs, compWf c) →
    runParse (cs.flatMap symbolBlock ++ rest) st = runParse rest (stAfterComps st cs) := by
  intro cs
  induction cs with
  | nil => intro st rest _; rfl
  | cons c cs ih =>
    intro st rest hwf
    obtain ⟨htype, hrot, hattrs, hnd⟩ := hwf c (by simp)
    rw [List.flatMap_cons, List.append_assoc]
    simp only [symbolBlock, List.cons_append]
    rw [runParse_cons_ok (parseStep_symbolLine st c htype hrot)]
    rw [runParse_attrs c.attributes _ (freshComp st.counter c) _ rfl hattrs
      (by simpa [freshComp] using hnd)]
    rw [ih _ rest (fun d hd => hwf d (by simp [hd]))]
    conv_rhs => rw [stAfterComps]
    congr 2

theorem runParse_wiresFold : ∀ (ws : List WireRec) (st : ParseSt) (rest : List String),
    runParse (ws.map wireLine ++ rest) st = runParse rest (stAfterWires st ws) := by
  intro ws
  induction ws with
  | nil => intro st rest; rfl
  | cons w ws ih =>
    intro st rest
    rw [List.map_cons, List.cons_append, runParse_cons_ok (parseStep_wireLine st w)]
    exact ih _ rest

theorem runParse_flagsFold : ∀ (fs : List Flag) (st : ParseSt) (rest : List String),
    (∀ f ∈ fs, isToken f.net_name) →
    runParse (fs.map flagLine ++ rest) st = runParse rest (stAfterFlags st fs) := by
  intro fs
  induction fs with
  | nil => intro st rest _; rfl
  | cons f fs ih =>
    intro st rest hwf
    rw [List.map_cons, List.cons_append,
      runParse_cons_ok (parseStep_flagLine st f (hwf f (by simp)))]
    exact ih _ rest (fun g hg => hwf g (by simp [hg]))

/-! ### Fields of the parser state after each run of lines -/

theorem closeCur_version (st : ParseSt) : (closeCur st).version = st.version := by
  cases h : st.cur <;> simp [closeCur, h]

theorem closeCur_sheet (st : ParseSt) : (closeCur st).sheet = st.sheet := by
  cases h : st.cur <;> simp [closeCur, h]

theorem closeCur_of_none {st : ParseSt} (h : st.cur = none) : closeCur st = st := by
  simp [closeCur, h]

theorem stAfterComps_fields : ∀ (cs : List Component) (st : ParseSt),
    (stAfterComps st cs).version = st.version ∧
    (stAfterComps st cs).sheet = st.sheet ∧
    (stAfterComps st cs).wires = st.wires ∧
    (stAfterComps st cs).flags = st.flags ∧
    (closeCur (stAfterComps st cs)).components =
      (closeCur st).components ++ parsedFrom st.counter cs := by
  intro cs
  induction cs with
  | nil => intro st; simp [stAfterComps, parsedFrom]
  | cons c cs ih =>
    intro st
    obtain ⟨h1, h2, h3, h4, h5⟩ :=
      ih { closeCur st with counter := st.counter + 1, cur := some (parsedOf st.counter c) }
    rw [stAfterComps]
    refine ⟨by rw [h1, closeCur_version], by rw [h2, closeCur_sheet],
      by rw [h3, closeCur_wires], by rw [h4, closeCur_flags], ?_⟩
    rw [h5]
    have hclose : closeCur { closeCur st with counter := st.counter + 1, cur := some (parsedOf st.counter c) } = { closeCur st with components := (closeCur st).components ++ [parsedOf st.counter c], counter := st.counter + 1, cur := none } := rfl
    rw [hclose]
    show (closeCur st).components ++ [parsedOf st.counter c] ++
      parsedFrom (st.counter + 1) cs = _
    rw [parsedFrom, List.append_assoc]
    rfl

theorem stAfterWires_fields : ∀ (ws : List WireRec) (st : ParseSt),
    (stAfterWires st ws).version = st.version ∧
    (stAfterWires st ws).sheet = st.sheet ∧
    (stAfterWires st ws).wires = st.wires ++ ws ∧
    (stAfterWires st ws).flags = st.flags ∧
    (closeCur (stAfterWires st ws)).components = (closeCur st).components ∧
    (stAfterWires st ws).counter = (closeCur st).counter := by
  intro ws
  induction ws with
  | nil => intro st; simp [stAfterWires, closeCur_counter]
  | cons w ws ih =>
    intro st
    obtain ⟨h1, h2, h3, h4, h5, h6⟩ := ih { closeCur st with wires := st.wires ++ [w] }
    rw [stAfterWires]
    have hnone : ({ closeCur st with wires := st.wires ++ [w] } : ParseSt).cur = none :=
      closeCur_cur st
    refine ⟨by rw [h1, closeCur_version], by rw [h2, closeCur_sheet],
      by rw [h3]; simp, by rw [h4, closeCur_flags], ?_, ?_⟩
    · rw [h5, closeCur_of_none hnone]
    · rw [h6, closeCur_of_none hnone]

theorem stAfterFlags_fields : ∀ (fs : List Flag) (st : ParseSt),
    (stAfterFlags st fs).version = st.version ∧
    (stAfterFlags st fs).sheet = st.sheet ∧
    (stAfterFlags st fs).wires = st.wires ∧
    (stAfterFlags st fs).flags = st.flags ++ fs ∧
    (closeCur (stAfterFlags st fs)).components = (closeCur st).components ∧
    (closeCur (stAfterFlags st fs)).wires = st.wires := by
  intro fs
  induction fs with
  | nil => intro st; simp [stAfterFlags, closeCur_wires]
  | cons f fs ih =>
    intro st
    obtain ⟨h1, h2, h3, h4, h5, h6⟩ := ih { closeCur st with flags := st.flags ++ [f] }
    rw [stAfterFlags]
    have hnone : ({ closeCur st with flags := st.flags ++ [f] } : ParseSt).cur = none :=
      closeCur_cur st
    refine ⟨by rw [h1, closeCur_version], by rw [h2, closeCur_sheet],
      by rw [h3, closeCur_wires], by rw [h4]; simp, ?_, by rw [h6, closeCur_wires]⟩
    rw [h5, closeCur_of_none hnone]

theorem parsedFrom_map_compKey : ∀ (cs : List Component) (k : Nat),
    (parsedFrom k cs).map compKey = cs.map compKey := by
  intro cs
  induction cs with
  | nil => intro k; rfl
  | cons c cs ih =>
    intro k
    rw [parsedFrom, List.map_cons, List.map_cons, ih]
    rfl

theorem roundtrip_main (S : Schematic)
    (hcomp : ∀ c ∈ S.components, compWf c)
    (hckeys : (S.components.map compKey).Nodup)
    (hwkeys : (S.wires.map wireKey).Nodup)
    (hflag : ∀ f ∈ S.flags, isToken f.net_name) :
    ∀ (st0 : ParseSt), st0.cur = none → st0.components = [] → st0.wires = [] →
      st0.flags = [] → st0.counter = 0 →
    (runParse (S.components.flatMap symbolBlock ++
        (S.wires.map wireLine ++ S.flags.map flagLine)) st0 >>= fun st =>
      pure { version := st.version, sheet := st.sheet,
             components := dedupByKey compKey [] st.components,
             wires := dedupByKey wireKey [] st.wires,
             flags := st.flags }) =
    .ok ({ version := st0.version, sheet := st0.sheet,
           components := parsedFrom 0 S.components, wires := S.wires,
           flags := S.flags } : Schematic) := by
  intro st0 hcur hc0 hw0 hf0 hk0
  have hcore : runParse (S.components.flatMap symbolBlock ++
      (S.wires.map wireLine ++ S.flags.map flagLine)) st0 =
      .ok (closeCur (stAfterFlags (stAfterWires (stAfterComps st0 S.components)
        S.wires) S.flags)) := by
    rw [runParse_blocks _ _ _ hcomp, runParse_wiresFold]
    rw [show (S.flags.map flagLine) = (S.flags.map flagLine ++ []) by simp]
    rw [runParse_flagsFold _ _ _ hflag]
    rfl
  rw [hcore]
  simp only [Bind.bind, Except.bind, pure, Except.pure]
  obtain ⟨hc1, hc2, hc3, hc4, hc5⟩ := stAfterComps_fields S.components st0
  obtain ⟨hw1, hw2, hw3, hw4, hw5, hw6⟩ :=
    stAfterWires_fields S.wires (stAfterComps st0 S.components)
  obtain ⟨hf1, hf2, hf3, hf4, hf5, hf6⟩ :=
    stAfterFlags_fields S.flags (stAfterWires (stAfterComps st0 S.components) S.wires)
  have hv : (closeCur (stAfterFlags (stAfterWires (stAfterComps st0 S.components)
      S.wires) S.flags)).version = st0.version := by
    rw [closeCur_version, hf1, hw1, hc1]
  have hs : (closeCur (stAfterFlags (stAfterWires (stAfterComps st0 S.components)
      S.wires) S.flags)).sheet = st0.sheet := by
    rw [closeCur_sheet, hf2, hw2, hc2]
  have hcomps : (closeCur (stAfterFlags (stAfterWires (stAfterComps st0 S.components)
      S.wires) S.flags)).components = parsedFrom 0 S.components := by
    rw [hf5, hw5, hc5, closeCur_of_none hcur, hc0, hk0]
    rfl
  have hwires : (closeCur (stAfterFlags (stAfterWires (stAfterComps st0 S.components)
      S.wires) S.flags)).wires = S.wires := by
    rw [closeCur_wires, hf3, hw3, hc3, hw0]
    rfl
  have hflags : (closeCur (stAfterFlags (stAfterWires (stAfterComps st0 S.components)
      S.wires) S.flags)).flags = S.flags := by
    rw [closeCur_flags, hf4, hw4, hc4, hf0]
    rfl
  rw [hv, hs, hcomps, hwires, hflags]
  rw [dedupByKey_eq_self compKey (parsedFrom 0 S.components) []
    (by rw [parsedFrom_map_compKey]; exact hckeys) (by simp)]
  rw [dedupByKey_eq_self wireKey S.wires [] hwkeys (by simp)]

/-- C1 (amended): guarded round trip.  For a Schematic whose components
and wires carry the parser's well-formedness invariants — token-shaped
type/rotation/net-name/attribute-key fields, round-trippable attribute
values, no duplicate attribute keys, pairwise distinct component dedup
keys and wire dedup keys, wires already origin-normalized, and no two
serialized lines textually identical — parsing the serialized text
reproduces the Schematic exactly, up to the parser reassigning the
counter-based ids `comp_1, comp_2, …` in order (`reindex`). -/
theorem C1_roundtrip_guarded (S : Schematic)
    (hver : ∀ v, S.version = some v → isToken v)
    (hcomp : ∀ c ∈ S.components, compWf c)
    (hckeys : (S.components.map compKey).Nodup)
    (hwire : ∀ w ∈ S.wires, w.x1 * w.x1 + w.y1 * w.y1 ≤ w.x2 * w.x2 + w.y2 * w.y2)
    (hwkeys : (S.wires.map wireKey).Nodup)
    (hflag : ∀ f ∈ S.flags, isToken f.net_name)
    (hnodup : (serializeRaw S).Nodup) :
    parse (serialize S) = .ok (reindex S) := by
  unfold serialize
  rw [dedupFirst_eq_self _ hnodup]
  have hmapw : S.wires.map (fun w => wireLine (normWire w)) = S.wires.map wireLine := by
    apply List.map_congr_left
    intro w hw
    have hnw : normWire w = w := by
      unfold normWire
      rw [if_neg (not_lt.mpr (hwire w hw))]
    rw [hnw]
  unfold parse serializeRaw
  rw [hmapw]
  simp only [List.append_assoc]
  have hmain := roundtrip_main S hcomp hckeys hwkeys hflag
  cases hv : S.version with
  | none =>
    cases hs : S.sheet with
    | none =>
      simp only [Option.map_none', Option.toList_none, List.nil_append]
      rw [hmain initSt rfl rfl rfl rfl rfl]
      simp [reindex, hv, hs, initSt]
    | some sh =>
      simp only [Option.map_none', Option.toList_none, Option.map_some',
        Option.toList_some, List.nil_append, List.singleton_append]
      rw [runParse_cons_ok (parseStep_sheetLine initSt sh)]
      rw [hmain { closeCur initSt with sheet := some sh } rfl rfl rfl rfl rfl]
      simp [reindex, hv, hs, initSt, closeCur]
  | some v =>
    have hvt : isToken v := hver v hv
    cases hs : S.sheet with
    | none =>
      simp only [Option.map_none', Option.toList_none, Option.map_some',
        Option.toList_some, List.nil_append, List.singleton_append]
      rw [runParse_cons_ok (parseStep_versionLine initSt v hvt)]
      rw [hmain { closeCur initSt with version := some v } rfl rfl rfl rfl rfl]
      simp [reindex, hv, hs, initSt, closeCur]
    | some sh =>
      simp only [Option.map_none', Option.toList_none, Option.map_some',
        Option.toList_some, List.nil_append, List.singleton_append, List.cons_append]
      rw [runParse_cons_ok (parseStep_versionLine initSt v hvt)]
      rw [runParse_cons_ok (parseStep_sheetLine { closeCur initSt with version := some v } sh)]
      rw [hmain { closeCur { closeCur initSt with version := some v } with sheet := some sh } rfl rfl rfl rfl rfl]
      simp [reindex, hv, hs, initSt, closeCur]

/-- C1 witness: a Schematic satisfying the guards round-trips; its
component id is reassigned to the counter form `comp_1` (here it already
has that id). -/
theorem C1_roundtrip_guarded_witness :
    parse (serialize ⟨some "4", some ⟨1, 880, 680⟩,
      [⟨"comp_1", "res", 100, 100, "R0", [("name", "R1")]⟩], [⟨0, 0, 100, 0⟩],
      [⟨0, 0, "vcc"⟩]⟩) =
    .ok (reindex ⟨some "4", some ⟨1, 880, 680⟩,
      [⟨"comp_1", "res", 100, 100, "R0", [("name", "R1")]⟩], [⟨0, 0, 100, 0⟩],
      [⟨0, 0, "vcc"⟩]⟩) :=
  C1_roundtrip_guarded _ (by decide) (by decide) (by decide) (by decide) (by decide)
    (by decide) (by decide)

/-- C1 counterexample to the round-trip law as stated: for the
well-formed input `WIRE 1 0 0 0` (a wire listed end-nearer-origin last),
the serializer re-orients the wire, so the reparse differs structurally
from the first parse: `parse(serialize(parse(text))) ≠ parse(text)`. -/
theorem C1_counterexample_roundtrip :
    parse ["WIRE 1 0 0 0"] = .ok ⟨none, none, [], [⟨1, 0, 0, 0⟩], []⟩ ∧
    serialize ⟨none, none, [], [⟨1, 0, 0, 0⟩], []⟩ = ["WIRE 0 0 1 0"] ∧
    parse ["WIRE 0 0 1 0"] = .ok ⟨none, none, [], [⟨0, 0, 1, 0⟩], []⟩ ∧
    (⟨none, none, [], [⟨0, 0, 1, 0⟩], []⟩ : Schematic) ≠
      ⟨none, none, [], [⟨1, 0, 0, 0⟩], []⟩ := by
  refine ⟨by decide, by decide, by decide, by decide⟩

/-! ## Counting and shape of the placement loops -/

theorem placeStep_fst_length (cfg : PlaceCfg) (wiresV wiresH : List Wire) (d : Det)
    (w : Wire) (st : List String × Nat) :
    (placeStep cfg wiresV wiresH d w st).1.length =
      st.1.length + (if placeTest cfg wiresV wiresH d w then 1 else 0) := by
  by_cases hp : placeTest cfg wiresV wiresH d w
  · rw [if_pos hp]
    unfold placeStep
    rcases hp with ⟨h1, h2⟩ | ⟨h1, h2, h3⟩
    · rw [if_pos h1, if_pos h2]; simp
    · rw [if_neg h1, if_pos h2, if_pos h3]; simp
  · rw [if_neg hp]
    unfold placeStep
    split_ifs with h1 h2 h3 h4
    · exact absurd (Or.inl ⟨h1, h2⟩) hp
    · simp
    · exact absurd (Or.inr ⟨h1, h3, h4⟩) hp
    · simp
    · simp

theorem placeDet_fst_length (cfg : PlaceCfg) (wiresV wiresH : List Wire) (d : Det) :
    ∀ (ws : List Wire) (st : List String × Nat),
      (placeDet cfg wiresV wiresH d ws st).1.length =
        st.1.length + ws.countP (fun w => decide (placeTest cfg wiresV wiresH d w)) := by
  intro ws
  induction ws with
  | nil => intro st; simp [placeDet]
  | cons w ws ih =>
    intro st
    simp only [placeDet, ih, placeStep_fst_length, List.countP_cons, decide_eq_true_eq]
    omega

theorem placeAll_fst_length (cfg : PlaceCfg) (wires wiresV wiresH : List Wire) :
    ∀ (ds : List Det) (st : List String × Nat),
      (placeAll cfg wires wiresV wiresH ds st).1.length =
        st.1.length + (ds.map (fun d => wires.countP
          (fun w => decide (placeTest cfg wiresV wiresH d w)))).sum := by
  intro ds
  induction ds with
  | nil => intro st; simp [placeAll]
  | cons d ds ih =>
    intro st
    simp only [placeAll, ih, placeDet_fst_length, List.map_cons, List.sum_cons]
    omega

theorem placeStep_aligned (cfg : PlaceCfg) (wiresV wiresH : List Wire) (d : Det)
    (w : Wire) (st : List String × Nat)
    (hw : w.x_start % 16 = 0 ∧ w.y_start % 16 = 0) (hoff : cfg.off % 16 = 0)
    (hst : ∀ l ∈ st.1, placedChunkAligned cfg l) :
    ∀ l ∈ (placeStep cfg wiresV wiresH d w st).1, placedChunkAligned cfg l := by
  unfold placeStep
  split_ifs with h1 h2 h3 h4
  · intro l hl
    rcases List.mem_append.mp hl with h | h
    · exact hst l h
    · rw [List.mem_singleton.mp h]
      exact ⟨w.x_start - cfg.off, d.ycenter - cfg.freeOff, st.2,
        Or.inl ⟨rfl, by omega⟩⟩
  · exact hst
  · intro l hl
    rcases List.mem_append.mp hl with h | h
    · exact hst l h
    · rw [List.mem_singleton.mp h]
      exact ⟨d.xcenter - cfg.freeOff, w.y_start - cfg.off, st.2,
        Or.inr ⟨rfl, by omega⟩⟩
  · exact hst
  · exact hst

theorem placeDet_aligned (cfg : PlaceCfg) (wiresV wiresH : List Wire) (d : Det) :
    ∀ (ws : List Wire) (st : List String × Nat),
      (∀ w ∈ ws, w.x_start % 16 = 0 ∧ w.y_start % 16 = 0) → cfg.off % 16 = 0 →
      (∀ l ∈ st.1, placedChunkAligned cfg l) →
      ∀ l ∈ (placeDet cfg wiresV wiresH d ws st).1, placedChunkAligned cfg l := by
  intro ws
  induction ws with
  | nil => intro st _ _ hst; exact hst
  | cons w ws ih =>
    intro st hws hoff hst
    exact ih _ (fun w' hw' => hws w' (by simp [hw'])) hoff
      (placeStep_aligned cfg wiresV wiresH d w st (hws w (by simp)) hoff hst)

theorem placeAll_aligned (cfg : PlaceCfg) (wires wiresV wiresH : List Wire) :
    ∀ (ds : List Det) (st : List String × Nat),
      (∀ w ∈ wires, w.x_start % 16 = 0 ∧ w.y_start % 16 = 0) → cfg.off % 16 = 0 →
      (∀ l ∈ st.1, placedChunkAligned cfg l) →
      ∀ l ∈ (placeAll cfg wires wiresV wiresH ds st).1, placedChunkAligned cfg l := by
  intro ds
  induction ds with
  | nil => intro st _ _ hst; exact hst
  | cons d ds ih =>
    intro st hw hoff hst
    exact ih _ hw hoff (placeDet_aligned cfg wiresV wiresH d wires st hw hoff hst)

theorem pySnap_spec (x : Int) :
    pySnap x % 16 = 0 ∧ pySnap x ≤ x ∧ x - 16 < pySnap x := by
  unfold pySnap
  split_ifs with h
  · exact ⟨h, le_refl x, by omega⟩
  · exact ⟨by omega, by omega, by omega⟩

/-! ## C2: every matching wire places a symbol -/

/-- C2 (amended): the number of symbol chunks a placement section emits
is, summed over its detections, the number of wires passing that
detection's orientation-specific containment test — the scan has no
`break`, so a detection attaches once for EVERY matching wire (in wire
discovery order), not only for the first. -/
theorem C2_placement_count (cfg : PlaceCfg) (dets : List Det)
    (wires wiresV wiresH : List Wire) :
    (placeSection cfg dets wires wiresV wiresH).length =
      (dets.map (fun d => wires.countP
        (fun w => decide (placeTest cfg wiresV wiresH d w)))).sum := by
  unfold placeSection
  rw [placeAll_fst_length]
  simp

/-- C2 counterexample: one resistor detection at `(100, 50)` with two
vertical wires both passing the containment test yields TWO placed
symbols (`R1` on the first wire at `x = 112 - 16`, then `R2` on the
second at `x = 96 - 16`), refuting "exactly the first matching wire"
and "one placed symbol per detection". -/
theorem C2_counterexample_two_symbols :
    placeSection resCfg [⟨100, 50⟩]
      [⟨112, 0, 112, 200, "v"⟩, ⟨96, 0, 96, 200, "v"⟩]
      [⟨112, 0, 112, 200, "v"⟩, ⟨96, 0, 96, 200, "v"⟩] [] =
      ["SYMBOL res 96 50 R0\nSYMATTR InstName R1\n",
       "SYMBOL res 80 50 R0\nSYMATTR InstName R2\n"] := by decide

/-! ## C5: the 16-unit grid -/

/-- C5 (amended): (a) after `_process_junctions`, every junction
coordinate is a multiple of 16, each obtained from the aligned value by
snapping DOWN to the nearest lower multiple (never more than 15 below);
(b) a placed component's constrained coordinate (the wire-start
coordinate minus the section offset) is a multiple of 16 whenever the
wires' start coordinates are grid-aligned and the section offset is —
but the free-axis coordinate is the raw detection centre minus the free
offset, which the source never snaps (see the counterexample). -/
theorem C5_grid_snapping_guarded (cfg : PlaceCfg) (js : List (Int × Int))
    (dets : List Det) (wires wiresV wiresH : List Wire)
    (hw : ∀ w ∈ wires, w.x_start % 16 = 0 ∧ w.y_start % 16 = 0)
    (hoff : cfg.off % 16 = 0) :
    (∀ p ∈ processJunctionsPoints js, p.1 % 16 = 0 ∧ p.2 % 16 = 0 ∧
      ∃ q ∈ alignJunctions js, p = (pySnap q.1, pySnap q.2) ∧
        p.1 ≤ q.1 ∧ q.1 - 16 < p.1 ∧ p.2 ≤ q.2 ∧ q.2 - 16 < p.2) ∧
    (∀ l ∈ placeSection cfg dets wires wiresV wiresH, placedChunkAligned cfg l) := by
  constructor
  · intro p hp
    simp only [processJunctionsPoints, snapJunctions] at hp
    rcases List.mem_map.mp hp with ⟨q, hq, rfl⟩
    have hx := pySnap_spec q.1
    have hy := pySnap_spec q.2
    exact ⟨hx.1, hy.1, q, hq, rfl, hx.2.1, hx.2.2, hy.2.1, hy.2.2⟩
  · exact placeAll_aligned cfg wires wiresV wiresH dets ([], 1) hw hoff
      (by intro l hl; exact absurd hl (List.not_mem_nil l))

/-- Closed instance of the guarded grid theorem: one junction at
`(5, 50)` (snapped to `(0, 48)`), one resistor detection, one
grid-aligned vertical wire. -/
theorem C5_grid_snapping_witness :
    (∀ p ∈ processJunctionsPoints [((5 : Int), (50 : Int))],
      p.1 % 16 = 0 ∧ p.2 % 16 = 0 ∧
      ∃ q ∈ alignJunctions [((5 : Int), (50 : Int))], p = (pySnap q.1, pySnap q.2) ∧
        p.1 ≤ q.1 ∧ q.1 - 16 < p.1 ∧ p.2 ≤ q.2 ∧ q.2 - 16 < p.2) ∧
    (∀ l ∈ placeSection resCfg [⟨100, 50⟩] [⟨112, 0, 112, 200, "v"⟩]
        [⟨112, 0, 112, 200, "v"⟩] [], placedChunkAligned resCfg l) :=
  C5_grid_snapping_guarded resCfg [((5 : Int), (50 : Int))] [⟨100, 50⟩]
    [⟨112, 0, 112, 200, "v"⟩] [⟨112, 0, 112, 200, "v"⟩] [] (by decide) (by decide)

/-- C5 counterexample: the free-axis coordinate of a placed component is
NOT snapped: a resistor detected at `(100, 50)` on a vertical wire at
`x = 112` is emitted as `SYMBOL res 96 50 R0` — its y-coordinate is the
raw detection centre 50, not a multiple of 16 — and parsing the
generated text back confirms a component at `y = 50`. -/
theorem C5_counterexample_free_axis :
    generateAsc [⟨100, 50⟩] [] [] [] [] [] [⟨112, 0, 112, 200, "v"⟩] []
        [⟨112, 0, 112, 200, "v"⟩] =
      .ok ("Version 4SHEET 1 880 680SYMBOL res 96 50 R0\nSYMATTR InstName R1\n" ++
        "WIRE 112 0 112 200\n") ∧
    parse ["SYMBOL res 96 50 R0", "SYMATTR InstName R1"] =
      .ok ⟨none, none, [⟨"comp_1", "res", 96, 50, "R0", [("name", "R1")]⟩], [], []⟩ ∧
    ¬ ((50 : Int) % 16 = 0) := by
  refine ⟨by decide, by decide, by decide⟩

/-! ## C3: the orientation bands -/

/-- C3 counterexample: the source's first condition is
`not limit < slope <= 360 - limit`, whose negation keeps `slope = limit`:
a pair at exactly 10 degrees classifies as horizontal `"h"`, not as
`"o"`, so the threshold is inclusive at 10 degrees (while 9.9 degrees is
horizontal as claimed). -/
theorem C3_counterexample_ten_degrees :
    classifyAngle 10 = "h" ∧ classifyAngle (99 / 10) = "h" :=
  ⟨by decide, by norm_num [classifyAngle]⟩

/-- C3 (amended): the exact bands of `test_if_wire_is_valid` as a
function of the slope angle: horizontal iff the angle is at most 10, or
strictly above 350, or in `[170, 190)`; vertical iff not horizontal and
strictly inside `(80, 100)` or `(260, 280)`; other exactly otherwise.
The horizontal band is inclusive at 10 and exclusive at 350, 170 and
190; the vertical bands are exclusive at every boundary. -/
theorem C3_classification_bands (s : ℚ) :
    (classifyAngle s = "h" ↔ (s ≤ 10 ∨ 350 < s ∨ (170 ≤ s ∧ s < 190))) ∧
    (classifyAngle s = "v" ↔ (¬ (s ≤ 10 ∨ 350 < s ∨ (170 ≤ s ∧ s < 190)) ∧
      ((80 < s ∧ s < 100) ∨ (260 < s ∧ s < 280)))) ∧
    (classifyAngle s = "o" ↔ (¬ (s ≤ 10 ∨ 350 < s ∨ (170 ≤ s ∧ s < 190)) ∧
      ¬ ((80 < s ∧ s < 100) ∨ (260 < s ∧ s < 280)))) := by
  have hcond1 : ((¬ ((10 : ℚ) < s ∧ s ≤ 360 - 10)) ∨ (180 - 10 ≤ s ∧ s < 180 + 10)) ↔
      (s ≤ 10 ∨ 350 < s ∨ (170 ≤ s ∧ s < 190)) := by
    constructor
    · rintro (h | h)
      · rcases not_and_or.mp h with h | h
        · exact Or.inl (le_of_not_lt h)
        · exact Or.inr (Or.inl (by linarith [lt_of_not_le h]))
      · exact Or.inr (Or.inr ⟨by linarith [h.1], by linarith [h.2]⟩)
    · rintro (h | h | h)
      · exact Or.inl (fun hc => absurd h (not_le.mpr hc.1))
      · exact Or.inl (fun hc => by linarith [hc.2])
      · exact Or.inr ⟨by linarith [h.1], by linarith [h.2]⟩
  have hcond2 : (((90 : ℚ) - 10 < s ∧ s < 90 + 10) ∨ (270 - 10 < s ∧ s < 270 + 10)) ↔
      ((80 < s ∧ s < 100) ∨ (260 < s ∧ s < 280)) := by
    constructor
    · rintro (h | h)
      · exact Or.inl ⟨by linarith [h.1], by linarith [h.2]⟩
      · exact Or.inr ⟨by linarith [h.1], by linarith [h.2]⟩
    · rintro (h | h)
      · exact Or.inl ⟨by linarith [h.1], by linarith [h.2]⟩
      · exact Or.inr ⟨by linarith [h.1], by linarith [h.2]⟩
  simp only [classifyAngle]
  split_ifs with hc1 hc2
  · have hH := hcond1.mp hc1
    exact ⟨iff_of_true (by decide) hH, iff_of_false (by decide) (fun hv => hv.1 hH),
      iff_of_false (by decide) (fun ho => ho.1 hH)⟩
  · have hH : ¬ (s ≤ 10 ∨ 350 < s ∨ (170 ≤ s ∧ s < 190)) := fun h => hc1 (hcond1.mpr h)
    have hV := hcond2.mp hc2
    exact ⟨iff_of_false (by decide) hH, iff_of_true (by decide) ⟨hH, hV⟩,
      iff_of_false (by decide) (fun ho => ho.2 hV)⟩
  · have hH : ¬ (s ≤ 10 ∨ 350 < s ∨ (170 ≤ s ∧ s < 190)) := fun h => hc1 (hcond1.mpr h)
    have hV : ¬ ((80 < s ∧ s < 100) ∨ (260 < s ∧ s < 280)) := fun h => hc2 (hcond2.mpr h)
    exact ⟨iff_of_false (by decide) hH, iff_of_false (by decide) (fun hv => hV hv.2),
      iff_of_true (by decide) ⟨hH, hV⟩⟩

/-! ## C4: the starting-point selection -/

/-- C4 (amended): the synthesized wire's start point is the endpoint no
farther from the origin (squared Euclidean distance at most the end
point's) — but a tie selects the SECOND input endpoint, not the first:
`select_starting_point` answers 1 only on strict `<`, and its `else`
branch swaps the endpoints. -/
theorem C4_start_selection (angleOf : Int → Int → ℚ) (x1 y1 x2 y2 : Int) :
    ((mkWire angleOf x1 y1 x2 y2).x_start * (mkWire angleOf x1 y1 x2 y2).x_start +
       (mkWire angleOf x1 y1 x2 y2).y_start * (mkWire angleOf x1 y1 x2 y2).y_start ≤
     (mkWire angleOf x1 y1 x2 y2).x_end * (mkWire angleOf x1 y1 x2 y2).x_end +
       (mkWire angleOf x1 y1 x2 y2).y_end * (mkWire angleOf x1 y1 x2 y2).y_end) ∧
    (x1 * x1 + y1 * y1 = x2 * x2 + y2 * y2 →
      (mkWire angleOf x1 y1 x2 y2).x_start = x2 ∧
      (mkWire angleOf x1 y1 x2 y2).y_start = y2) := by
  by_cases hd : x1 * x1 + y1 * y1 < x2 * x2 + y2 * y2
  · simp only [mkWire, selectStartingPoint, if_pos hd, if_pos rfl]
    exact ⟨le_of_lt hd, fun ht => absurd (ht ▸ hd) (lt_irrefl _)⟩
  · have h2 : ¬ ((if x1 * x1 + y1 * y1 < x2 * x2 + y2 * y2 then 1 else 2) = 1) := by
      rw [if_neg hd]; decide
    simp only [mkWire, selectStartingPoint, if_neg h2]
    exact ⟨le_of_not_lt hd, fun _ => ⟨trivial, trivial⟩⟩

/-- C4 counterexample: the endpoints `(3, 4)` and `(5, 0)` are both at
distance 5 from the origin; the claim says the tie preserves input order
(start `(3, 4)`), but the constructed wire starts at the second endpoint
`(5, 0)`.  (The angle argument is irrelevant to endpoint selection and
is instantiated by a constant function.) -/
theorem C4_counterexample_tie_second :
    (3 * 3 + 4 * 4 : Int) = 5 * 5 + 0 * 0 ∧
    (mkWire (fun _ _ => 0) 3 4 5 0).x_start = 5 ∧
    (mkWire (fun _ _ => 0) 3 4 5 0).y_start = 0 := by
  refine ⟨by decide, by decide, by decide⟩

/-! ## C7: the ground section raises -/

/-- C7: the ground placer never completes an attachment.  A ground
detection at `(100, 50)` attaches to the horizontal wire
`(0,0)–(200,0)`; the source then evaluates
`data_gnd.loc[index, "y_center"]` while building the connector-wire
line, but the frame's column is named `ycenter`, so pandas raises
`KeyError("y_center")` and the whole generation aborts — no Flag or
connector wire ever reaches the output. -/
theorem C7_ground_keyerror :
    groundSection [⟨100, 50⟩] [⟨0, 0, 200, 0, "h"⟩] [⟨0, 0, 200, 0, "h"⟩] =
      .error (PyErr.keyError "y_center") ∧
    generateAsc [] [] [] [] [⟨100, 50⟩] [] [⟨0, 0, 200, 0, "h"⟩]
        [⟨0, 0, 200, 0, "h"⟩] [] =
      .error (PyErr.keyError "y_center") := by
  refine ⟨by decide, by decide⟩

/-! ## C9: the header of the generated text -/

theorem dedupByKey_cons_notmem {α β : Type} [DecidableEq β] (key : α → β)
    (seen : List β) (c : α) (cs : List α) (h : key c ∉ seen) :
    dedupByKey key seen (c :: cs) = c :: dedupByKey key (key c :: seen) cs := by
  rw [dedupByKey, if_neg h]

/-- C9 (amended): every successful generation's output text begins with
the constant header text `Version 4` followed by `SHEET 1 880 680`,
independent of the detections — but only as a text prefix: the source
appends these two chunks WITHOUT trailing newlines, so they are not
lines of the output (see the counterexample). -/
theorem C9_header_prefix (dr dv dva dc dg di : List Det) (ws wh wv : List Wire)
    (out : String) (h : generateAsc dr dv dva dc dg di ws wh wv = .ok out) :
    ∃ t, out = "Version 4" ++ ("SHEET 1 880 680" ++ t) := by
  simp only [generateAsc, List.append_assoc, List.cons_append, List.nil_append] at h
  rcases except_bind_eq_ok h with ⟨u, _hg, hout⟩
  rw [pure_eq_ok] at hout
  obtain ⟨L, hL⟩ : ∃ L, pyJoin (dedupFirst ("Version 4" :: "SHEET 1 880 680" :: L)) =
      out := ⟨_, hout⟩
  refine ⟨pyJoin (dedupByKey id (id "SHEET 1 880 680" :: id "Version 4" :: []) L), ?_⟩
  rw [← hL]
  unfold dedupFirst
  rw [dedupByKey_cons_notmem _ _ _ _ (by decide), dedupByKey_cons_notmem _ _ _ _ (by decide)]
  rfl

/-- Closed instance of the header-prefix theorem at the empty inputs. -/
theorem C9_header_prefix_witness :
    ∃ t, "Version 4SHEET 1 880 680" = "Version 4" ++ ("SHEET 1 880 680" ++ t) :=
  C9_header_prefix [] [] [] [] [] [] [] [] [] "Version 4SHEET 1 880 680" (by decide)

/-- C9 counterexample to the claim's "header lines": with no detections
and no wires the whole output is the single newline-free text
`Version 4SHEET 1 880 680` — the output does not begin with a line
`Version 4`; the headers are glued to each other and to whatever
follows. -/
theorem C9_counterexample_not_lines :
    generateAsc [] [] [] [] [] [] [] [] [] = .ok "Version 4SHEET 1 880 680" ∧
    (∀ c ∈ "Version 4SHEET 1 880 680".data, c ≠ '\n') ∧
    "Version 4SHEET 1 880 680" ≠ "Version 4" := by
  refine ⟨by decide, by decide, by decide⟩

/-! ## C8: the scratch file is always released -/

/-- C8: for a scratch path not already present, the call returns the
file system exactly as it found it — the scratch file no longer exists —
and the body's outcome (result or exception) is passed through
unchanged; the `finally` deletion runs on both exit paths. -/
theorem C8_temp_file_released {E A : Type} (p : String) (fs : List String)
    (body : Except E A) (hfresh : p ∉ fs) :
    (scopedTempCall p fs body).1 = fs ∧ p ∉ (scopedTempCall p fs body).1 ∧
    (scopedTempCall p fs body).2 = body := by
  have h1 : (scopedTempCall p fs body).1 = fs := by
    show (if p ∈ p :: fs then (p :: fs).erase p else p :: fs) = fs
    rw [if_pos (List.mem_cons_self p fs), List.erase_cons_head]
  exact ⟨h1, by rw [h1]; exact hfresh, rfl⟩

/-- Closed instance of the release theorem, on the failing path: the
body raises (a `ValueError` from parsing), and the scratch file is still
gone afterwards while the exception propagates. -/
theorem C8_temp_file_released_witness :
    ("/tmp/upload.asc" ∉ (["sketch.png"] : List String)) ∧
    ((scopedTempCall "/tmp/upload.asc" ["sketch.png"]
        (.error "ValueError" : Except String Nat)).1 = ["sketch.png"] ∧
      "/tmp/upload.asc" ∉ (scopedTempCall "/tmp/upload.asc" ["sketch.png"]
        (.error "ValueError" : Except String Nat)).1 ∧
      (scopedTempCall "/tmp/upload.asc" ["sketch.png"]
        (.error "ValueError" : Except String Nat)).2 = .error "ValueError") :=
  ⟨by decide, C8_temp_file_released "/tmp/upload.asc" ["sketch.png"] _ (by decide)⟩

end Circuit
